import Mathlib

/-!
# ReactNativeRealmConnect: a shallow embedding of `src/ReactNativeRealmConnect.js`

The wrapper component produced by `connectToQuery(queries, shouldComponentUpdate)` is
embedded as explicit state passing over a record `Sys` that holds the instance fields
(`this.props`, `this.results`, `this.state`), the log of `setState` calls, and the state
of the live-query engine (every handle's items and registered listeners, plus the log of
`addListener` / `removeListener` calls).

A method that can throw returns a pair: the outcome (`Except Err _`) and the state that
is left behind, because in JavaScript the effects performed before a `throw` persist.

The result modifiers tag their argument in place and return it, so they are embedded over
a heap of objects with identity (`ObjHeap`); a query map is read through that heap.
-/

namespace RealmConnect

/-! ## JavaScript objects as ordered string-keyed records -/

/-- Property names. -/
abbrev Key := String

/-- An object: its own enumerable properties in enumeration order, names distinct. -/
abbrev Obj (α : Type) := List (Key × α)

/-- Property read `o[key]`; `none` stands for `undefined` (no such property). -/
def objGet {α : Type} : Obj α → Key → Option α
  | [], _ => none
  | (k, v) :: rest, key => if k = key then some v else objGet rest key

/-- Property write `o[key] = v`: overwrite in place, or append a new property. -/
def objSet {α : Type} : Obj α → Key → α → Obj α
  | [], key, v => [(key, v)]
  | (k, x) :: rest, key, v =>
    if k = key then (k, v) :: rest else (k, x) :: objSet rest key v

/-- Copy of every property of `source` onto `target`, as object spread and the
state-merge do: `source` wins on a name present in both. -/
def objAssign {α : Type} (target source : Obj α) : Obj α :=
  source.foldl (fun acc kv => objSet acc kv.1 kv.2) target

/-- The names of an object, `Object.keys(o)`. -/
def objKeys {α : Type} (o : Obj α) : List Key := o.map Prod.fst

/-! ## Values, handles and the live-query engine -/

/-- Identity of a live query-result handle (a Realm `Results` object). -/
abbrev HandleId := Nat

/-- Identity of a stored object, an element of a result set. -/
abbrev Elem := Nat

/-- What a query definition returns and what `this.results[key]` holds: `undefined`,
`null`, or a reference to a live handle. `!==` on these is identity comparison. -/
inductive Ref where
  | undefined
  | null
  | handle (h : HandleId)
  deriving DecidableEq, Repr

/-- Presentation values: the shaped results and the inputs of the component.
`arr` is a plain array (a fixed sequence); `live` is a reference to a live handle,
whose contents are whatever the engine holds when it is read. -/
inductive Value where
  | null
  | num (n : Nat)
  | obj (e : Elem)
  | arr (xs : List Elem)
  | live (h : HandleId)
  deriving DecidableEq, Repr

/-- A change-listener closure `this.listeners[key]`: the constructor creates one per key,
so a closure is identified by the instance that owns it and its key. -/
structure Listener where
  owner : Nat
  key : Key
  deriving DecidableEq, Repr

/-- A call received by the engine. -/
inductive Call where
  | addListener (h : HandleId) (l : Listener)
  | removeListener (h : HandleId) (l : Listener)
  deriving DecidableEq, Repr

/-- State of one live result set. -/
structure LiveSet where
  items : List Elem
  listeners : List Listener
  deriving DecidableEq, Repr

/-- State of the live-query engine: every handle's result set, and the log of the
listener calls made so far. -/
structure World where
  sets : HandleId → LiveSet
  calls : List Call

/-- Modelled from the spec: `handle.addListener(cb)` of the external live-query engine
(section 6, `attachListener`), which is not part of this repository. The callback is
appended to the handle's registrations; the call is logged. -/
def World.addListener (w : World) (h : HandleId) (l : Listener) : World :=
  { sets := fun x =>
      if x = h then { w.sets x with listeners := (w.sets x).listeners ++ [l] } else w.sets x
    calls := w.calls ++ [Call.addListener h l] }

/-- Modelled from the spec: `handle.removeListener(cb)` of the external live-query engine
(section 6, `detachListener`). Every registration of the callback on that handle is
dropped; removing a callback that is not registered changes nothing. The call is logged. -/
def World.removeListener (w : World) (h : HandleId) (l : Listener) : World :=
  { sets := fun x =>
      if x = h then
        { w.sets x with listeners := (w.sets x).listeners.filter (fun m => decide (m ≠ l)) }
      else w.sets x
    calls := w.calls ++ [Call.removeListener h l] }

/-- The engine replaces the contents of a live result set (insertion, deletion, replacement). -/
def World.mutate (w : World) (h : HandleId) (xs : List Elem) : World :=
  { w with sets := fun x => if x = h then { w.sets x with items := xs } else w.sets x }

/-- How often listener `l` is registered on handle `h`. -/
def World.registered (w : World) (h : HandleId) (l : Listener) : Nat :=
  (w.sets h).listeners.count l

/-- What a reader of a presentation value sees as its elements in engine state `w`. -/
def Value.elements (w : World) : Value → Option (List Elem)
  | Value.arr xs => some xs
  | Value.live h => some (w.sets h).items
  | _ => none

/-! ## Query definitions and the result modifiers -/

/-- The component inputs. -/
abbrev Props := Obj Value

/-- An extractor callback: it receives the live handle and reads its contents. -/
abbrev Extractor := HandleId → List Elem → Value

/-- A query definition: the function from inputs to a handle, with the tag properties
the modifiers attach to the function object (`unique`, `count`, `extractor`). -/
structure QueryDef where
  fn : Props → Ref
  unique : Bool
  count : Bool
  extractor : Option Extractor

/-- An untagged query definition. -/
def QueryDef.plain (fn : Props → Ref) : QueryDef :=
  { fn := fn, unique := false, count := false, extractor := none }

/-- The property write `d.unique = true` on the state of an object. -/
def QueryDef.setUnique (d : QueryDef) : QueryDef :=
  { d with unique := true }

/-- The property write `d.count = true` on the state of an object. -/
def QueryDef.setCount (d : QueryDef) : QueryDef :=
  { d with count := true }

/-- The property write `d.extractor = extractor` on the state of an object. -/
def QueryDef.setExtractor (d : QueryDef) (extractor : Extractor) : QueryDef :=
  { d with extractor := some extractor }

/-- Identity of an annotatable object (a query-definition function object). -/
abbrev ObjRef := Nat

/-- The annotatable objects of the program: the current state of each one, by identity.
Two references to the same object read the same state. -/
abbrev ObjHeap := ObjRef → QueryDef

/-- The object `r` of the heap replaced by the state `d`, every other object as it was. -/
def heapWrite (heap : ObjHeap) (r : ObjRef) (d : QueryDef) : ObjHeap :=
  fun x => if x = r then d else heap x

/-- Source `unique(results)`: `results.unique = true; return results`. The argument is a
reference: the object is tagged in place and the same reference is returned. -/
def unique (heap : ObjHeap) (results : ObjRef) : ObjRef × ObjHeap :=
  (results, heapWrite heap results (heap results).setUnique)

/-- Source `count(results)`: `results.count = true; return results`, in place as in
`unique`. -/
def count (heap : ObjHeap) (results : ObjRef) : ObjRef × ObjHeap :=
  (results, heapWrite heap results (heap results).setCount)

/-- Source `extract(results, extractor)`: `results.extractor = extractor; return results`,
in place as in `unique`. -/
def extract (heap : ObjHeap) (results : ObjRef) (extractor : Extractor) : ObjRef × ObjHeap :=
  (results, heapWrite heap results ((heap results).setExtractor extractor))

/-- The query map that `connectToQuery` is given, read through the heap: every key with
the current state of the object it refers to. -/
def queryMap (heap : ObjHeap) (refs : Obj ObjRef) : Obj QueryDef :=
  refs.map (fun kr => (kr.1, heap kr.2))

/-! ## The wrapper component -/

/-- Errors a method can raise: `new Error(key)` thrown by `updateQuery`, and the
`TypeError` of a member access on `null` or `undefined`. -/
inductive Err where
  | config (key : Key)
  | typeError
  deriving DecidableEq, Repr

/-- The change payload of a notification. -/
structure Changes where
  modifications : List Nat
  insertions : List Nat
  deletions : List Nat
  deriving DecidableEq, Repr

/-- A wrapper instance together with the engine it talks to. `merges` logs the
argument of every `setState` call, oldest first. -/
structure Sys where
  id : Nat
  props : Props
  results : Obj Ref
  state : Obj Value
  merges : List (Obj Value)
  world : World

/-- The read `this.results[key]`. -/
def heldAt (results : Obj Ref) (key : Key) : Ref :=
  (objGet results key).getD Ref.undefined

/-- The closure `this.listeners[key]`. -/
def listenerOf (s : Sys) (key : Key) : Listener :=
  { owner := s.id, key := key }

/-- Modelled from the spec: the state container of the UI framework (section 6,
`mergeState(patch)`), which is not part of this repository. The patch is merged into
the view state and the call is logged. -/
def setState (s : Sys) (patch : Obj Value) : Sys :=
  { s with state := objAssign s.state patch, merges := s.merges ++ [patch] }

/-- Source `constructor(props)`: empty state, and for every key of `queries` a `null`
entry in `this.results` (the listener closures are given by `listenerOf`). -/
def construct (queries : Obj QueryDef) (id : Nat) (props : Props) (w : World) : Sys :=
  { id := id
    props := props
    results := (objKeys queries).foldl (fun r key => objSet r key Ref.null) []
    state := []
    merges := []
    world := w }

/-- Source `getResult(key, results)`: shape the result set by the tags of `queries[key]`,
checked in the order unique, count, extractor, list. The component only ever passes a
handle (the entry `updateQuery` has just stored, or the results of a notification); the
reads `queries[key].unique` for a key that is not in `queries`, and `results.length` or
`Array.from(results)` for a `results` that is `null` or `undefined`, are `TypeError`s. -/
def getResult (queries : Obj QueryDef) (w : World) (key : Key) (results : Ref) :
    Except Err Value :=
  match objGet queries key, results with
  | some q, Ref.handle h =>
    if q.unique then
      match (w.sets h).items with
      | [] => Except.ok Value.null
      | e :: _ => Except.ok (Value.obj e)
    else if q.count then
      Except.ok (Value.num (w.sets h).items.length)
    else
      match q.extractor with
      | some f => Except.ok (f h (w.sets h).items)
      | none => Except.ok (Value.arr (w.sets h).items)
  | _, _ => Except.error Err.typeError

/-- The guarded detach at the top of `updateQuery`:
`if (this.results[key] !== null) this.results[key].removeListener(this.listeners[key])`. -/
def detachHeld (s : Sys) (key : Key) : Except Err Sys :=
  match heldAt s.results key with
  | Ref.null => Except.ok s
  | Ref.handle h => Except.ok { s with world := s.world.removeListener h (listenerOf s key) }
  | Ref.undefined => Except.error Err.typeError

/-- Source `updateQuery(key, query, props)`: returns whether the held handle changed. -/
def updateQuery (s : Sys) (key : Key) (query : QueryDef) (props : Props) :
    Except Err Bool × Sys :=
  let queryResult := query.fn props
  if queryResult ≠ heldAt s.results key then
    match detachHeld s key with
    | Except.error e => (Except.error e, s)
    | Except.ok s1 =>
      match queryResult with
      | Ref.undefined => (Except.error (Err.config key), s1)
      | Ref.null => (Except.error Err.typeError, s1)
      | Ref.handle h =>
        (Except.ok true,
          { s1 with
            world := s1.world.addListener h (listenerOf s key)
            results := objSet s1.results key (Ref.handle h) })
  else
    (Except.ok false, s)

/-- The `forEach` loop of `getStateFromProps` over the remaining entries of `queries`,
with the local `state` object built so far. -/
def resolveEntries (queries : Obj QueryDef) (props : Props) :
    Obj QueryDef → Obj Value → Sys → Except Err (Obj Value) × Sys
  | [], state, s => (Except.ok state, s)
  | (key, query) :: rest, state, s =>
    match updateQuery s key query props with
    | (Except.error e, s1) => (Except.error e, s1)
    | (Except.ok false, s1) => resolveEntries queries props rest state s1
    | (Except.ok true, s1) =>
      match getResult queries s1.world key (heldAt s1.results key) with
      | Except.error e => (Except.error e, s1)
      | Except.ok v => resolveEntries queries props rest (objSet state key v) s1

/-- Source `getStateFromProps(props)`. -/
def getStateFromProps (queries : Obj QueryDef) (s : Sys) (props : Props) :
    Except Err (Obj Value) × Sys :=
  resolveEntries queries props queries [] s

/-- Source `componentDidMount()`: `this.setState(this.getStateFromProps())`. -/
def componentDidMount (queries : Obj QueryDef) (s : Sys) : Except Err Unit × Sys :=
  match getStateFromProps queries s s.props with
  | (Except.error e, s1) => (Except.error e, s1)
  | (Except.ok patch, s1) => (Except.ok (), setState s1 patch)

/-- Source `componentWillReceiveProps(nextProps)`. -/
def componentWillReceiveProps (queries : Obj QueryDef) (s : Sys) (nextProps : Props) :
    Except Err Unit × Sys :=
  match getStateFromProps queries s nextProps with
  | (Except.error e, s1) => (Except.error e, s1)
  | (Except.ok patch, s1) => (Except.ok (), setState s1 patch)

/-- The `map` loop of `removeListeners` over the remaining entries of `prevResults`:
`results.removeListener(this.listeners[key])`, with no test of `results`. -/
def removeEntries : Obj Ref → Sys → Except Err Unit × Sys
  | [], s => (Except.ok (), s)
  | (key, Ref.handle h) :: rest, s =>
    removeEntries rest { s with world := s.world.removeListener h (listenerOf s key) }
  | (_, _) :: _, s => (Except.error Err.typeError, s)

/-- Source `removeListeners(prevResults = this.results)`. -/
def removeListeners (s : Sys) : Except Err Unit × Sys :=
  removeEntries s.results s

/-- Source `componentWillUnmount()`. -/
def componentWillUnmount (s : Sys) : Except Err Unit × Sys :=
  removeListeners s

/-- Source `shouldComponentUpdate(nextProps)`, with the predicate given to
`connectToQuery` (`none` for the default `null`). -/
def shouldComponentUpdate (predicate : Option (Props → Bool)) (nextProps : Props) : Bool :=
  match predicate with
  | some p => p nextProps
  | none => true

/-- The test `modifications.length || insertions.length || deletions.length`. -/
def Changes.any (c : Changes) : Bool :=
  !c.modifications.isEmpty || !c.insertions.isEmpty || !c.deletions.isEmpty

/-- Modelled from the spec: the state container of the UI framework once the framework
has unmounted the component (section 4.3: no state-merge takes effect after unmount).
React drops the update of a `setState` call made on an unmounted component: the call is
logged, the view state stays as it is. -/
def setStateUnmounted (s : Sys) (patch : Obj Value) : Sys :=
  { s with merges := s.merges ++ [patch] }

/-- Source `onChange(key, results, changes)`, with the state container that
`this.setState` reaches as a parameter. -/
def onChangeWith (merge : Sys → Obj Value → Sys) (queries : Obj QueryDef) (s : Sys)
    (key : Key) (results : Ref) (changes : Changes) : Except Err Unit × Sys :=
  if changes.any then
    match getResult queries s.world key results with
    | Except.error e => (Except.error e, s)
    | Except.ok v => (Except.ok (), merge s [(key, v)])
  else
    (Except.ok (), s)

/-- Source `onChange(key, results, changes)` on a mounted component. -/
def onChange (queries : Obj QueryDef) (s : Sys) (key : Key) (results : Ref)
    (changes : Changes) : Except Err Unit × Sys :=
  onChangeWith setState queries s key results changes

/-- Source `onChange(key, results, changes)` called after the framework has unmounted the
component. -/
def onChangeUnmounted (queries : Obj QueryDef) (s : Sys) (key : Key) (results : Ref)
    (changes : Changes) : Except Err Unit × Sys :=
  onChangeWith setStateUnmounted queries s key results changes

/-- A presentation component: its identity and its `defaultProps`. -/
structure Component where
  id : Nat
  defaultProps : Obj Value
  deriving DecidableEq, Repr

/-- An element of a presentation component: the component and the inputs it receives. -/
structure Element where
  component : Nat
  props : Obj Value
  deriving DecidableEq, Repr

/-- The names that React's `createElement` reserves in the object it is given: they are
taken out and never reach the inputs of the component. -/
def reservedProps : List Key := ["key", "ref", "__self", "__source"]

/-- The defaults loop of `createElement`: every name of `defaults` that `props` does not
have gets its default value. -/
def fillDefaults (defaults props : Obj Value) : Obj Value :=
  defaults.foldl
    (fun acc kv => if (objGet acc kv.1).isNone then objSet acc kv.1 kv.2 else acc) props

/-- Modelled from the spec: the element-construction primitive of the UI framework
(section 6), React's `createElement(type, config)`, which is not part of this repository.
The inputs of the element are the properties of `config` whose names are not reserved,
completed by the component's `defaultProps`. The key and the ref that React keeps beside
the inputs are not modelled. -/
def createElement (wrapped : Component) (config : Obj Value) : Element :=
  { component := wrapped.id
    props := fillDefaults wrapped.defaultProps
      (config.filter (fun kv => decide (kv.1 ∉ reservedProps))) }

/-- Source `render()`: `null` while the state has no key, otherwise
`createElement(WrappedComponent, { ...props, ...state })`. -/
def render (wrapped : Component) (s : Sys) : Option Element :=
  if (objKeys s.state).length = 0 then none
  else some (createElement wrapped (objAssign (objAssign [] s.props) s.state))

/-- The mount hook run on a freshly constructed instance: `constructor(props)` followed
by `componentDidMount()`. -/
def mountFresh (queries : Obj QueryDef) (id : Nat) (props : Props) (w : World) :
    Except Err Unit × Sys :=
  componentDidMount queries (construct queries id props w)

/-! ## Reachable states and the registration invariant -/

deriving instance DecidableEq for Except

/-- No closure of instance `id` is registered on any handle: the closures of a new
instance are created by its constructor, so the engine cannot know them yet. -/
def World.freshFor (w : World) (id : Nat) : Prop :=
  ∀ h key, w.registered h { owner := id, key := key } = 0

/-- The states an instance can be in: constructed over an engine that does not know its
closures, then any sequence of lifecycle hooks and change notifications (whether they
return or throw), assignments of new inputs by the framework, and steps of the engine
that leave this instance's registrations alone. -/
inductive Reachable (queries : Obj QueryDef) : Sys → Prop where
  | init (id : Nat) (props : Props) (w : World) (hfresh : w.freshFor id) :
      Reachable queries (construct queries id props w)
  | mount (s : Sys) (hs : Reachable queries s) :
      Reachable queries (componentDidMount queries s).2
  | receiveProps (s : Sys) (nextProps : Props) (hs : Reachable queries s) :
      Reachable queries (componentWillReceiveProps queries s nextProps).2
  | assignProps (s : Sys) (nextProps : Props) (hs : Reachable queries s) :
      Reachable queries { s with props := nextProps }
  | notify (s : Sys) (key : Key) (results : Ref) (changes : Changes)
      (hs : Reachable queries s) :
      Reachable queries (onChange queries s key results changes).2
  | unmount (s : Sys) (hs : Reachable queries s) :
      Reachable queries (componentWillUnmount s).2
  | engine (s : Sys) (w : World) (hs : Reachable queries s)
      (hown : ∀ h key, w.registered h (listenerOf s key) =
        s.world.registered h (listenerOf s key)) :
      Reachable queries { s with world := w }

/-- The closure of a key is registered nowhere but on the handle held for that key, and
there at most once. -/
def WeakInv (s : Sys) : Prop :=
  ∀ key h, s.world.registered h (listenerOf s key) ≤
    if heldAt s.results key = Ref.handle h then 1 else 0

/-! ## Concrete engines, query maps and instances -/

/-- An engine whose handle 1 holds two objects and handle 2 one object; no listener is
registered and no call has been made. -/
def sampleWorld : World :=
  { sets := fun h =>
      { items := if h = 1 then [10, 11] else if h = 2 then [20] else []
        listeners := [] }
    calls := [] }

/-- A heap of untagged query definitions: on every input, object `r` returns handle 2
when `20 ≤ r` and handle 1 otherwise. -/
def plainObjects : ObjHeap :=
  fun r => QueryDef.plain (fun _ => Ref.handle (if 20 ≤ r then 2 else 1))

/-- The heap `plainObjects` after the modifier calls `unique(o20)`, `count(o11)`,
`extract(o12, f)`, `extract(count(o13), f)` and `extract(count(unique(o21)), f)`, where
the extractor `f` hands back the live handle itself. -/
def sampleObjects : ObjHeap :=
  let h1 := (unique plainObjects 20).2
  let h2 := (count h1 11).2
  let h3 := (extract h2 12 (fun h _ => Value.live h)).2
  let h4 := (extract (count h3 13).2 (count h3 13).1 (fun h _ => Value.live h)).2
  let h5 := (count (unique h4 21).2 (unique h4 21).1).2
  (extract h5 21 (fun h _ => Value.live h)).2

/-- A query map with a list query on handle 1 and a unique query on handle 2. -/
def sampleQueries : Obj QueryDef :=
  queryMap sampleObjects [("items", 10), ("first", 20)]

/-- A query map whose first definition returns `null` and whose second returns handle 1. -/
def nullQueries : Obj QueryDef :=
  [("a", QueryDef.plain (fun _ => Ref.null)),
   ("b", QueryDef.plain (fun _ => Ref.handle 1))]

/-- A query definition that follows the input `on`: absent gives `null`, the number 0
gives `undefined`, the number 2 gives handle 2, anything else gives handle 1. -/
def switchQuery : QueryDef :=
  QueryDef.plain (fun p =>
    match objGet p "on" with
    | none => Ref.null
    | some (Value.num 0) => Ref.undefined
    | some (Value.num 2) => Ref.handle 2
    | some _ => Ref.handle 1)

/-- A query map with the single definition `switchQuery`. -/
def switchQueries : Obj QueryDef := [("a", switchQuery)]

/-- Inputs with `on` set to the number `n`. -/
def onProps (n : Nat) : Props := [("on", Value.num n)]

/-- The instance of `switchQueries` mounted with `on = 1`: it holds handle 1. -/
def switchMounted : Sys :=
  (componentDidMount switchQueries (construct switchQueries 0 (onProps 1) sampleWorld)).2

/-- A query map with tagged definitions: a count query, an extract query whose extractor
hands back the live handle itself, a definition carrying the count and the extractor tag,
and a definition carrying all three tags. -/
def taggedQueries : Obj QueryDef :=
  queryMap sampleObjects [("total", 11), ("live", 12), ("two", 13), ("three", 21)]

/-- The instance `switchMounted` after its unmount hook. -/
def switchUnmounted : Sys := (componentWillUnmount switchMounted).2

/-- The instance `switchMounted` after an input change for which its query definition
returns `undefined`: the hook has thrown the configuration error. -/
def switchFailed : Sys := (componentWillReceiveProps switchQueries switchMounted (onProps 0)).2

/-- The instance `switchMounted` with inputs `on` and `a`: the name `a` is also a key of
its view state. -/
def switchColliding : Sys :=
  { switchMounted with props := [("on", Value.num 1), ("a", Value.null)] }

/-- A query map whose single key is named `key`, a list query on handle 1. -/
def keyQueries : Obj QueryDef := [("key", QueryDef.plain (fun _ => Ref.handle 1))]

/-- The instance of `keyQueries` after its mount hook: its view state has the name `key`. -/
def keyMounted : Sys := (mountFresh keyQueries 0 [] sampleWorld).2

/-- A presentation component without `defaultProps`. -/
def plainComponent : Component := { id := 7, defaultProps := [] }

/-! ## The registry invariant and the steps that keep it -/

/-- The registry invariant of the data model: the closure of every key that holds a
handle is registered on that handle exactly once. -/
def StrongInv (s : Sys) : Prop :=
  ∀ key h, heldAt s.results key = Ref.handle h →
    s.world.registered h (listenerOf s key) = 1

/-- On inputs `props`, every key that holds a handle gets a handle as its candidate: no
`updateQuery` call of the re-resolution detaches a listener and then throws. -/
def KeepsHandles (queries : Obj QueryDef) (s : Sys) (props : Props) : Prop :=
  ∀ k q, (k, q) ∈ queries → ∀ h, heldAt s.results k = Ref.handle h →
    ∃ h1, q.fn props = Ref.handle h1

/-- The states reached from construction by mount, input-change and change-notification
steps (with the framework assigning inputs and the engine leaving this instance's
registrations alone in between), where each mount or input-change step, whether it returns
or throws, satisfies `KeepsHandles`. -/
inductive ReachableKeeping (queries : Obj QueryDef) : Sys → Prop where
  | init (id : Nat) (props : Props) (w : World) (hfresh : w.freshFor id) :
      ReachableKeeping queries (construct queries id props w)
  | mount (s : Sys) (hs : ReachableKeeping queries s)
      (hkeep : KeepsHandles queries s s.props) :
      ReachableKeeping queries (componentDidMount queries s).2
  | receiveProps (s : Sys) (nextProps : Props) (hs : ReachableKeeping queries s)
      (hkeep : KeepsHandles queries s nextProps) :
      ReachableKeeping queries (componentWillReceiveProps queries s nextProps).2
  | assignProps (s : Sys) (nextProps : Props) (hs : ReachableKeeping queries s) :
      ReachableKeeping queries { s with props := nextProps }
  | notify (s : Sys) (key : Key) (results : Ref) (changes : Changes)
      (hs : ReachableKeeping queries s) :
      ReachableKeeping queries (onChange queries s key results changes).2
  | engine (s : Sys) (w : World) (hs : ReachableKeeping queries s)
      (hown : ∀ h key, w.registered h (listenerOf s key) =
        s.world.registered h (listenerOf s key)) :
      ReachableKeeping queries { s with world := w }

/-! ## Objects and the engine: basic facts -/

theorem objGet_objSet_self {α : Type} (o : Obj α) (k : Key) (v : α) :
    objGet (objSet o k v) k = some v := by
  induction o with
  | nil => simp [objSet, objGet]
  | cons p rest ih =>
    obtain ⟨k0, x⟩ := p
    by_cases hk : k0 = k
    · simp [objSet, objGet, hk]
    · simp [objSet, objGet, hk, ih]

theorem objGet_objSet_ne {α : Type} (o : Obj α) (k k1 : Key) (v : α) (hne : k1 ≠ k) :
    objGet (objSet o k v) k1 = objGet o k1 := by
  induction o with
  | nil => simp [objSet, objGet, Ne.symm hne]
  | cons p rest ih =>
    obtain ⟨k0, x⟩ := p
    by_cases hk : k0 = k
    · subst hk
      simp [objSet, objGet, Ne.symm hne]
    · by_cases hk1 : k0 = k1
      · subst hk1
        simp [objSet, objGet, hk]
      · simp [objSet, objGet, hk, hk1, ih]

theorem heldAt_objSet_self (r : Obj Ref) (k : Key) (v : Ref) :
    heldAt (objSet r k v) k = v := by
  simp [heldAt, objGet_objSet_self]

theorem heldAt_objSet_ne (r : Obj Ref) (k k1 : Key) (v : Ref) (hne : k1 ≠ k) :
    heldAt (objSet r k v) k1 = heldAt r k1 := by
  simp [heldAt, objGet_objSet_ne r k k1 v hne]

theorem registered_addListener (w : World) (h h1 : HandleId) (l l1 : Listener) :
    (w.addListener h l).registered h1 l1 =
      w.registered h1 l1 + (if h1 = h ∧ l1 = l then 1 else 0) := by
  unfold World.registered World.addListener
  by_cases hh : h1 = h
  · by_cases hl : l1 = l
    · subst hh; subst hl; simp
    · subst hh
      have : ¬ l = l1 := fun e => hl e.symm
      simp [hl, List.count_cons, this]
  · simp [hh]

theorem registered_removeListener (w : World) (h h1 : HandleId) (l l1 : Listener) :
    (w.removeListener h l).registered h1 l1 =
      if h1 = h ∧ l1 = l then 0 else w.registered h1 l1 := by
  unfold World.registered World.removeListener
  by_cases hh : h1 = h
  · subst hh
    by_cases hl : l1 = l
    · subst hl
      simp [List.count_eq_zero]
    · simp [hl, List.count_filter]
  · simp [hh]

/-! ## `updateQuery` -/

theorem items_addListener (w : World) (h h1 : HandleId) (l : Listener) :
    ((w.addListener h l).sets h1).items = (w.sets h1).items := by
  unfold World.addListener
  by_cases hh : h1 = h <;> simp [hh]

theorem items_removeListener (w : World) (h h1 : HandleId) (l : Listener) :
    ((w.removeListener h l).sets h1).items = (w.sets h1).items := by
  unfold World.removeListener
  by_cases hh : h1 = h <;> simp [hh]

theorem listenerOf_ne (s : Sys) (k k1 : Key) (hne : k1 ≠ k) :
    listenerOf s k1 ≠ listenerOf s k := by
  intro e
  apply hne
  simpa [listenerOf] using e

/-- The outcome of `updateQuery`, by cases on the candidate and the held entry. -/
theorem updateQuery_same (s : Sys) (key : Key) (q : QueryDef) (props : Props)
    (hc : q.fn props = heldAt s.results key) :
    updateQuery s key q props = (Except.ok false, s) := by
  simp [updateQuery, hc]

theorem updateQuery_attach_null (s : Sys) (key : Key) (q : QueryDef) (props : Props)
    (h : HandleId) (hc : q.fn props = Ref.handle h) (hheld : heldAt s.results key = Ref.null) :
    updateQuery s key q props =
      (Except.ok true,
        { s with
          world := s.world.addListener h (listenerOf s key)
          results := objSet s.results key (Ref.handle h) }) := by
  simp [updateQuery, detachHeld, hc, hheld]

theorem updateQuery_attach_handle (s : Sys) (key : Key) (q : QueryDef) (props : Props)
    (h h0 : HandleId) (hc : q.fn props = Ref.handle h)
    (hheld : heldAt s.results key = Ref.handle h0) (hne : h ≠ h0) :
    updateQuery s key q props =
      (Except.ok true,
        { s with
          world := (s.world.removeListener h0 (listenerOf s key)).addListener h (listenerOf s key)
          results := objSet s.results key (Ref.handle h) }) := by
  simp [updateQuery, detachHeld, hc, hheld, hne, listenerOf]

theorem updateQuery_undefined_null (s : Sys) (key : Key) (q : QueryDef) (props : Props)
    (hc : q.fn props = Ref.undefined) (hheld : heldAt s.results key = Ref.null) :
    updateQuery s key q props = (Except.error (Err.config key), s) := by
  simp [updateQuery, detachHeld, hc, hheld]

theorem updateQuery_undefined_handle (s : Sys) (key : Key) (q : QueryDef) (props : Props)
    (h0 : HandleId) (hc : q.fn props = Ref.undefined)
    (hheld : heldAt s.results key = Ref.handle h0) :
    updateQuery s key q props =
      (Except.error (Err.config key),
        { s with world := s.world.removeListener h0 (listenerOf s key) }) := by
  simp [updateQuery, detachHeld, hc, hheld]

theorem updateQuery_null_handle (s : Sys) (key : Key) (q : QueryDef) (props : Props)
    (h0 : HandleId) (hc : q.fn props = Ref.null)
    (hheld : heldAt s.results key = Ref.handle h0) :
    updateQuery s key q props =
      (Except.error Err.typeError,
        { s with world := s.world.removeListener h0 (listenerOf s key) }) := by
  simp [updateQuery, detachHeld, hc, hheld]

theorem updateQuery_absent (s : Sys) (key : Key) (q : QueryDef) (props : Props)
    (hc : q.fn props ≠ Ref.undefined) (hheld : heldAt s.results key = Ref.undefined) :
    updateQuery s key q props = (Except.error Err.typeError, s) := by
  simp [updateQuery, detachHeld, hc, hheld]

/-- Every way `updateQuery` can go: one of the seven outcomes above. -/
theorem updateQuery_cases (s : Sys) (key : Key) (q : QueryDef) (props : Props) :
    (q.fn props = heldAt s.results key ∧
      updateQuery s key q props = (Except.ok false, s)) ∨
    (heldAt s.results key = Ref.undefined ∧
      updateQuery s key q props = (Except.error Err.typeError, s)) ∨
    (heldAt s.results key = Ref.null ∧ q.fn props = Ref.undefined ∧
      updateQuery s key q props = (Except.error (Err.config key), s)) ∨
    (∃ h, heldAt s.results key = Ref.null ∧ q.fn props = Ref.handle h ∧
      updateQuery s key q props =
        (Except.ok true,
          { s with
            world := s.world.addListener h (listenerOf s key)
            results := objSet s.results key (Ref.handle h) })) ∨
    (∃ h h0, heldAt s.results key = Ref.handle h0 ∧ q.fn props = Ref.handle h ∧ h ≠ h0 ∧
      updateQuery s key q props =
        (Except.ok true,
          { s with
            world := (s.world.removeListener h0 (listenerOf s key)).addListener h
              (listenerOf s key)
            results := objSet s.results key (Ref.handle h) })) ∨
    (∃ h0 e, heldAt s.results key = Ref.handle h0 ∧
      updateQuery s key q props =
        (Except.error e, { s with world := s.world.removeListener h0 (listenerOf s key) })) := by
  by_cases hsame : q.fn props = heldAt s.results key
  · exact Or.inl ⟨hsame, updateQuery_same s key q props hsame⟩
  · cases hheld : heldAt s.results key with
    | undefined =>
      refine Or.inr (Or.inl ⟨rfl, updateQuery_absent s key q props ?_ hheld⟩)
      rw [hheld] at hsame; exact hsame
    | null =>
      cases hc : q.fn props with
      | undefined =>
        exact Or.inr (Or.inr (Or.inl ⟨rfl, rfl, updateQuery_undefined_null s key q props hc hheld⟩))
      | null => rw [hheld, hc] at hsame; exact absurd rfl hsame
      | handle h =>
        exact Or.inr (Or.inr (Or.inr (Or.inl
          ⟨h, rfl, rfl, updateQuery_attach_null s key q props h hc hheld⟩)))
    | handle h0 =>
      cases hc : q.fn props with
      | undefined =>
        exact Or.inr (Or.inr (Or.inr (Or.inr (Or.inr
          ⟨h0, _, rfl, updateQuery_undefined_handle s key q props h0 hc hheld⟩))))
      | null =>
        exact Or.inr (Or.inr (Or.inr (Or.inr (Or.inr
          ⟨h0, _, rfl, updateQuery_null_handle s key q props h0 hc hheld⟩))))
      | handle h =>
        have hne : h ≠ h0 := by
          intro e; apply hsame; rw [hheld, hc, e]
        exact Or.inr (Or.inr (Or.inr (Or.inr (Or.inl
          ⟨h, h0, rfl, rfl, hne, updateQuery_attach_handle s key q props h h0 hc hheld hne⟩))))

/-- What `updateQuery` leaves alone: the instance fields other than `results`, the held
entries of the other keys, the registrations of every other listener, and all items. -/
theorem updateQuery_frame (s : Sys) (key : Key) (q : QueryDef) (props : Props) :
    (updateQuery s key q props).2.id = s.id ∧
    (updateQuery s key q props).2.props = s.props ∧
    (updateQuery s key q props).2.state = s.state ∧
    (updateQuery s key q props).2.merges = s.merges ∧
    (∀ k1, k1 ≠ key → heldAt (updateQuery s key q props).2.results k1 = heldAt s.results k1) ∧
    (∀ h l, l ≠ listenerOf s key →
      (updateQuery s key q props).2.world.registered h l = s.world.registered h l) ∧
    (∀ h, ((updateQuery s key q props).2.world.sets h).items = (s.world.sets h).items) := by
  rcases updateQuery_cases s key q props with ⟨-, e⟩ | ⟨-, e⟩ | ⟨-, -, e⟩ | ⟨h, -, -, e⟩ | ⟨h, h0, -, -, -, e⟩ |
    ⟨h0, err, -, e⟩ <;> rw [e] <;> refine ⟨rfl, rfl, rfl, rfl, ?_, ?_, ?_⟩
  all_goals first
    | (intro k1 hk1; first | rfl | exact heldAt_objSet_ne _ _ _ _ hk1)
    | (intro h1 l hl
       simp [registered_addListener, registered_removeListener, hl])
    | (intro h1
       simp [items_addListener, items_removeListener])

theorem updateQuery_weakInv (s : Sys) (key : Key) (q : QueryDef) (props : Props)
    (hinv : WeakInv s) : WeakInv (updateQuery s key q props).2 := by
  intro k1 h1
  obtain ⟨hid, -, -, -, hheld, hreg, -⟩ := updateQuery_frame s key q props
  have hl : listenerOf (updateQuery s key q props).2 k1 = listenerOf s k1 := by
    simp [listenerOf, hid]
  rw [hl]
  by_cases hk : k1 = key
  · subst hk
    have hb := hinv k1 h1
    rcases updateQuery_cases s k1 q props with ⟨-, e⟩ | ⟨-, e⟩ | ⟨-, -, e⟩ | ⟨h, hn, -, e⟩ |
      ⟨h, h0, hh, -, hne, e⟩ | ⟨h0, err, hh, e⟩ <;> rw [e]
    · exact hb
    · exact hb
    · exact hb
    · have hz : s.world.registered h1 (listenerOf s k1) = 0 := by
        simpa [hn] using hb
      simp only [registered_addListener, heldAt_objSet_self, hz]
      by_cases e1 : h1 = h <;> simp [e1]
    · simp only [registered_addListener, registered_removeListener, heldAt_objSet_self]
      have hne2 : ¬ h0 = h := fun e => hne e.symm
      by_cases e1 : h1 = h
      · have e5 : ¬ h1 = h0 := by rw [e1]; exact hne
        have e6 : ¬ h0 = h1 := fun e => e5 e.symm
        have hz : s.world.registered h1 (listenerOf s k1) = 0 := by
          rw [hh] at hb
          simpa [e6] using hb
        rw [e1] at hz
        simp [e1, hne, hne2, hz]
      · have e2 : ¬ h = h1 := fun e => e1 e.symm
        by_cases e3 : h1 = h0
        · simp [e1, e2, e3, hne, hne2]
        · have hz : s.world.registered h1 (listenerOf s k1) = 0 := by
            rw [hh] at hb
            have e4 : ¬ h0 = h1 := fun e => e3 e.symm
            simpa [e4] using hb
          simp [e1, e2, e3, hz]
    · simp only [registered_removeListener]
      by_cases e3 : h1 = h0
      · simp [e3]
      · simp only [e3, false_and, if_false]
        exact hb
  · rw [hreg h1 _ (listenerOf_ne s key k1 hk), hheld k1 hk]
    exact hinv k1 h1

/-! ## The loop of `getStateFromProps` -/

theorem getResult_congr_items (queries : Obj QueryDef) (w w1 : World) (key : Key) (r : Ref)
    (hitems : ∀ h, (w1.sets h).items = (w.sets h).items) :
    getResult queries w1 key r = getResult queries w key r := by
  unfold getResult
  cases objGet queries key with
  | none => rfl
  | some q =>
    cases r with
    | undefined => rfl
    | null => rfl
    | handle h => simp only [hitems h]

theorem getResult_handle_ok (queries : Obj QueryDef) (w : World) (key : Key) (q : QueryDef)
    (h : HandleId) (hq : objGet queries key = some q) :
    ∃ v, getResult queries w key (Ref.handle h) = Except.ok v := by
  unfold getResult
  rw [hq]
  simp only
  split
  · split <;> exact ⟨_, rfl⟩
  · split
    · exact ⟨_, rfl⟩
    · split <;> exact ⟨_, rfl⟩

theorem mem_objKeys_of_mem {α : Type} (o : Obj α) (k : Key) (v : α) (hm : (k, v) ∈ o) :
    k ∈ objKeys o := by
  unfold objKeys
  exact List.mem_map_of_mem Prod.fst hm

/-- In an object (distinct names), a listed entry is the one a property read finds. -/
theorem objGet_of_mem {α : Type} (o : Obj α) (k : Key) (v : α)
    (hnodup : (objKeys o).Nodup) (hm : (k, v) ∈ o) : objGet o k = some v := by
  induction o with
  | nil => cases hm
  | cons p rest ih =>
    obtain ⟨k0, x⟩ := p
    simp only [objKeys, List.map_cons, List.nodup_cons] at hnodup
    rcases List.mem_cons.mp hm with e | hm1
    · cases e
      simp [objGet]
    · have hk : k ∈ objKeys rest := mem_objKeys_of_mem rest k v hm1
      have hne : k0 ≠ k := by
        intro e; subst e; exact hnodup.1 hk
      simp only [objGet, hne, if_false]
      exact ih hnodup.2 hm1

/-- What the loop of `getStateFromProps` leaves alone. -/
theorem resolveEntries_frame (queries : Obj QueryDef) (props : Props) :
    ∀ (entries : Obj QueryDef) (acc : Obj Value) (s : Sys),
      (resolveEntries queries props entries acc s).2.id = s.id ∧
      (resolveEntries queries props entries acc s).2.props = s.props ∧
      (resolveEntries queries props entries acc s).2.state = s.state ∧
      (resolveEntries queries props entries acc s).2.merges = s.merges ∧
      (∀ k1, k1 ∉ objKeys entries →
        heldAt (resolveEntries queries props entries acc s).2.results k1 = heldAt s.results k1) ∧
      (∀ h l, (∀ k ∈ objKeys entries, l ≠ listenerOf s k) →
        (resolveEntries queries props entries acc s).2.world.registered h l =
          s.world.registered h l) ∧
      (∀ h, ((resolveEntries queries props entries acc s).2.world.sets h).items =
        (s.world.sets h).items) ∧
      (∀ patch, (resolveEntries queries props entries acc s).1 = Except.ok patch →
        ∀ k1, k1 ∉ objKeys entries → objGet patch k1 = objGet acc k1) ∧
      (WeakInv s → WeakInv (resolveEntries queries props entries acc s).2) := by
  intro entries
  induction entries with
  | nil =>
    intro acc s
    refine ⟨rfl, rfl, rfl, rfl, fun _ _ => rfl, fun _ _ _ => rfl, fun _ => rfl, ?_, fun h => h⟩
    intro patch hp k1 _
    simp only [resolveEntries] at hp
    cases hp
    rfl
  | cons p rest ih =>
    obtain ⟨key, query⟩ := p
    intro acc s
    obtain ⟨uid, uprops, ustate, umerges, uheld, ureg, uitems⟩ :=
      updateQuery_frame s key query props
    have uinv := updateQuery_weakInv s key query props
    have hls : ∀ k, listenerOf (updateQuery s key query props).2 k = listenerOf s k := by
      intro k; simp [listenerOf, uid]
    have hkeys : objKeys ((key, query) :: rest) = key :: objKeys rest := rfl
    rw [hkeys]
    cases hU : updateQuery s key query props with
    | mk r s1 =>
      rw [hU] at uid uprops ustate umerges uheld ureg uitems uinv hls
      simp only at uid uprops ustate umerges uheld ureg uitems uinv hls
      -- the part of the frame shared by the two continuing branches
      have cont : ∀ acc1,
          (resolveEntries queries props rest acc1 s1).2.id = s.id ∧
          (resolveEntries queries props rest acc1 s1).2.props = s.props ∧
          (resolveEntries queries props rest acc1 s1).2.state = s.state ∧
          (resolveEntries queries props rest acc1 s1).2.merges = s.merges ∧
          (∀ k1, k1 ∉ key :: objKeys rest →
            heldAt (resolveEntries queries props rest acc1 s1).2.results k1 =
              heldAt s.results k1) ∧
          (∀ h l, (∀ k ∈ key :: objKeys rest, l ≠ listenerOf s k) →
            (resolveEntries queries props rest acc1 s1).2.world.registered h l =
              s.world.registered h l) ∧
          (∀ h, ((resolveEntries queries props rest acc1 s1).2.world.sets h).items =
            (s.world.sets h).items) ∧
          (∀ patch, (resolveEntries queries props rest acc1 s1).1 = Except.ok patch →
            ∀ k1, k1 ∉ objKeys rest → objGet patch k1 = objGet acc1 k1) ∧
          (WeakInv s → WeakInv (resolveEntries queries props rest acc1 s1).2) := by
        intro acc1
        obtain ⟨rid, rprops, rstate, rmerges, rheld, rreg, ritems, rpatch, rinv⟩ := ih acc1 s1
        refine ⟨rid.trans uid, rprops.trans uprops, rstate.trans ustate, rmerges.trans umerges,
          ?_, ?_, ?_, rpatch, fun h => rinv (uinv h)⟩
        · intro k1 hk1
          simp only [List.mem_cons, not_or] at hk1
          rw [rheld k1 hk1.2, uheld k1 hk1.1]
        · intro h l hl
          rw [rreg h l (fun k hk => by rw [hls k]; exact hl k (List.mem_cons_of_mem _ hk)),
            ureg h l (hl key (List.mem_cons_self _ _))]
        · intro h
          rw [ritems h, uitems h]
      have stop : ∀ (e : Err),
          (∀ k1, k1 ∉ key :: objKeys rest → heldAt s1.results k1 = heldAt s.results k1) ∧
          (∀ h l, (∀ k ∈ key :: objKeys rest, l ≠ listenerOf s k) →
            s1.world.registered h l = s.world.registered h l) := by
        intro _
        refine ⟨?_, ?_⟩
        · intro k1 hk1
          simp only [List.mem_cons, not_or] at hk1
          exact uheld k1 hk1.1
        · intro h l hl
          exact ureg h l (hl key (List.mem_cons_self _ _))
      cases r with
      | error e =>
        simp only [resolveEntries, hU]
        exact ⟨uid, uprops, ustate, umerges, (stop e).1, (stop e).2, uitems,
          (fun _ hp => by cases hp), uinv⟩
      | ok b =>
        cases b with
        | false =>
          simp only [resolveEntries, hU]
          obtain ⟨c1, c2, c3, c4, c5, c6, c7, c8, c9⟩ := cont acc
          refine ⟨c1, c2, c3, c4, c5, c6, c7, ?_, c9⟩
          intro patch hp k1 hk1
          simp only [List.mem_cons, not_or] at hk1
          exact c8 patch hp k1 hk1.2
        | true =>
          simp only [resolveEntries, hU]
          cases hG : getResult queries s1.world key (heldAt s1.results key) with
          | error e =>
            simp only
            exact ⟨uid, uprops, ustate, umerges, (stop e).1, (stop e).2, uitems,
              (fun _ hp => by cases hp), uinv⟩
          | ok v =>
            simp only
            obtain ⟨c1, c2, c3, c4, c5, c6, c7, c8, c9⟩ := cont (objSet acc key v)
            refine ⟨c1, c2, c3, c4, c5, c6, c7, ?_, c9⟩
            intro patch hp k1 hk1
            simp only [List.mem_cons, not_or] at hk1
            rw [c8 patch hp k1 hk1.2, objGet_objSet_ne acc key k1 v hk1.1]

/-- One round of the loop that ends well: `updateQuery` returned, and the loop went on
with the local state either untouched or extended by the shaped result of this key. -/
theorem resolveEntries_cons_ok (queries : Obj QueryDef) (props : Props) (key : Key)
    (query : QueryDef) (rest : Obj QueryDef) (acc patch : Obj Value) (s : Sys)
    (hok : (resolveEntries queries props ((key, query) :: rest) acc s).1 = Except.ok patch) :
    ∃ b s1 acc1, updateQuery s key query props = (Except.ok b, s1) ∧
      resolveEntries queries props ((key, query) :: rest) acc s =
        resolveEntries queries props rest acc1 s1 ∧
      (b = false → acc1 = acc) ∧
      (b = true → ∃ v, getResult queries s1.world key (heldAt s1.results key) = Except.ok v ∧
        acc1 = objSet acc key v) := by
  cases hU : updateQuery s key query props with
  | mk r s1 =>
    cases r with
    | error e =>
      simp only [resolveEntries, hU] at hok
      cases hok
    | ok b =>
      cases b with
      | false =>
        refine ⟨false, s1, acc, rfl, ?_, fun _ => rfl, (fun hb => by cases hb)⟩
        simp only [resolveEntries, hU]
      | true =>
        cases hG : getResult queries s1.world key (heldAt s1.results key) with
        | error e =>
          simp only [resolveEntries, hU, hG] at hok
          cases hok
        | ok v =>
          refine ⟨true, s1, objSet acc key v, rfl, ?_, (fun hb => by cases hb),
            fun _ => ⟨v, hG, rfl⟩⟩
          simp only [resolveEntries, hU, hG]

/-- A key whose candidate is the held entry gets no entry in the local state of the loop,
and keeps its held entry. -/
theorem resolveEntries_same (queries : Obj QueryDef) (props : Props) (key : Key)
    (q : QueryDef) :
    ∀ (entries : Obj QueryDef) (acc : Obj Value) (s : Sys),
      (objKeys entries).Nodup → (key, q) ∈ entries → q.fn props = heldAt s.results key →
      ∀ patch, (resolveEntries queries props entries acc s).1 = Except.ok patch →
        objGet patch key = objGet acc key ∧
        heldAt (resolveEntries queries props entries acc s).2.results key =
          heldAt s.results key := by
  intro entries
  induction entries with
  | nil => intro acc s _ hm; cases hm
  | cons p rest ih =>
    obtain ⟨k0, q0⟩ := p
    intro acc s hnodup hm hc patch hok
    have hkeys : objKeys ((k0, q0) :: rest) = k0 :: objKeys rest := rfl
    rw [hkeys, List.nodup_cons] at hnodup
    rcases List.mem_cons.mp hm with e | hm1
    · cases e
      have hU := updateQuery_same s key q props hc
      have hstep : resolveEntries queries props ((key, q) :: rest) acc s =
          resolveEntries queries props rest acc s := by
        simp only [resolveEntries, hU]
      rw [hstep] at hok ⊢
      obtain ⟨-, -, -, -, fheld, -, -, fpatch, -⟩ := resolveEntries_frame queries props rest acc s
      exact ⟨fpatch patch hok key hnodup.1, fheld key hnodup.1⟩
    · have hne : key ≠ k0 := by
        intro e; subst e
        exact hnodup.1 (mem_objKeys_of_mem rest key q hm1)
      obtain ⟨b, s1, acc1, hU, hstep, hfalse, htrue⟩ :=
        resolveEntries_cons_ok queries props k0 q0 rest acc patch s hok
      obtain ⟨-, -, -, -, uheld, -, -⟩ := updateQuery_frame s k0 q0 props
      rw [hU] at uheld
      simp only at uheld
      rw [hstep] at hok ⊢
      have hc1 : q.fn props = heldAt s1.results key := by rw [uheld key hne]; exact hc
      obtain ⟨i1, i2⟩ := ih acc1 s1 hnodup.2 hm1 hc1 patch hok
      refine ⟨?_, by rw [i2, uheld key hne]⟩
      rw [i1]
      cases b with
      | false => rw [hfalse rfl]
      | true =>
        obtain ⟨v, -, e⟩ := htrue rfl
        rw [e, objGet_objSet_ne acc k0 key v hne]

/-- A key whose candidate is a handle other than the held entry ends the loop holding the
candidate, with its listener registered there once and its shaped value in the local
state. -/
theorem resolveEntries_changed (queries : Obj QueryDef) (props : Props) (key : Key)
    (q : QueryDef) (h : HandleId) :
    ∀ (entries : Obj QueryDef) (acc : Obj Value) (s : Sys),
      (objKeys entries).Nodup → (key, q) ∈ entries → q.fn props = Ref.handle h →
      heldAt s.results key ≠ Ref.handle h → WeakInv s →
      ∀ patch, (resolveEntries queries props entries acc s).1 = Except.ok patch →
        heldAt (resolveEntries queries props entries acc s).2.results key = Ref.handle h ∧
        (resolveEntries queries props entries acc s).2.world.registered h (listenerOf s key) = 1 ∧
        ∃ v, getResult queries s.world key (Ref.handle h) = Except.ok v ∧
          objGet patch key = some v := by
  intro entries
  induction entries with
  | nil => intro acc s _ hm; cases hm
  | cons p rest ih =>
    obtain ⟨k0, q0⟩ := p
    intro acc s hnodup hm hc hheld hinv patch hok
    have hkeys : objKeys ((k0, q0) :: rest) = k0 :: objKeys rest := rfl
    rw [hkeys, List.nodup_cons] at hnodup
    obtain ⟨b, s1, acc1, hU, hstep, hfalse, htrue⟩ :=
      resolveEntries_cons_ok queries props k0 q0 rest acc patch s hok
    obtain ⟨uid, -, -, -, uheld, ureg, uitems⟩ := updateQuery_frame s k0 q0 props
    have uinv := updateQuery_weakInv s k0 q0 props hinv
    rw [hU] at uid uheld ureg uitems uinv
    simp only at uid uheld ureg uitems uinv
    have hls : ∀ k, listenerOf s1 k = listenerOf s k := by
      intro k; simp [listenerOf, uid]
    rw [hstep] at hok ⊢
    rcases List.mem_cons.mp hm with e | hm1
    · cases e
      -- this round handles `key` itself
      have hzero : s.world.registered h (listenerOf s key) = 0 := by
        have := hinv key h
        simpa [hheld] using this
      have hs1 : heldAt s1.results key = Ref.handle h ∧
          s1.world.registered h (listenerOf s key) = 1 ∧ b = true := by
        rcases updateQuery_cases s key q props with ⟨hceq, -⟩ | ⟨-, e⟩ | ⟨-, -, e⟩ |
          ⟨h2, -, hc2, e⟩ | ⟨h2, h0, hh, hc2, hne, e⟩ | ⟨h0, err, -, e⟩
        · rw [hc] at hceq
          exact absurd hceq.symm hheld
        · rw [hU] at e; cases e
        · rw [hU] at e; cases e
        · rw [hU] at e
          rw [hc] at hc2
          cases hc2
          cases e
          refine ⟨heldAt_objSet_self _ _ _, ?_, rfl⟩
          simp [registered_addListener, hzero]
        · rw [hU] at e
          rw [hc] at hc2
          cases hc2
          cases e
          refine ⟨heldAt_objSet_self _ _ _, ?_, rfl⟩
          simp [registered_addListener, registered_removeListener, hne, hzero]
        · rw [hU] at e; cases e
      obtain ⟨hheld1, hreg1, hb⟩ := hs1
      obtain ⟨v, hG, hacc⟩ := htrue hb
      obtain ⟨-, -, -, -, fheld, freg, -, fpatch, -⟩ :=
        resolveEntries_frame queries props rest acc1 s1
      refine ⟨by rw [fheld key hnodup.1, hheld1], ?_, v, ?_, ?_⟩
      · rw [freg h (listenerOf s key) ?_, hreg1]
        intro k hk
        rw [hls k]
        apply Ne.symm
        apply listenerOf_ne
        intro e; subst e
        exact hnodup.1 hk
      · rw [← hG, hheld1]
        exact (getResult_congr_items queries s.world s1.world key _ uitems).symm
      · rw [fpatch patch hok key hnodup.1, hacc, objGet_objSet_self]
    · have hne : key ≠ k0 := by
        intro e; subst e
        exact hnodup.1 (mem_objKeys_of_mem rest key q hm1)
      have hheld1 : heldAt s1.results key ≠ Ref.handle h := by
        rw [uheld key hne]; exact hheld
      obtain ⟨i1, i2, v, i3, i4⟩ := ih acc1 s1 hnodup.2 hm1 hc hheld1 uinv patch hok
      refine ⟨i1, by rw [← hls key]; exact i2, v, ?_, i4⟩
      rw [← i3]
      exact (getResult_congr_items queries s.world s1.world key _ uitems).symm

/-! ## Objects: names and merging -/

theorem objKeys_objSet {α : Type} (o : Obj α) (k : Key) (v : α) :
    objKeys (objSet o k v) = if k ∈ objKeys o then objKeys o else objKeys o ++ [k] := by
  induction o with
  | nil => simp [objSet, objKeys]
  | cons p rest ih =>
    obtain ⟨k0, x⟩ := p
    by_cases hk : k0 = k
    · subst hk
      simp [objSet, objKeys]
    · have hk2 : ¬ k = k0 := fun e => hk e.symm
      have ih2 : List.map Prod.fst (objSet rest k v) =
          if k ∈ List.map Prod.fst rest then List.map Prod.fst rest
          else List.map Prod.fst rest ++ [k] := ih
      simp only [objSet, hk, if_false, objKeys, List.map_cons, List.mem_cons, hk2, false_or, ih2]
      split <;> simp

theorem objKeys_objSet_nodup {α : Type} (o : Obj α) (k : Key) (v : α)
    (hnodup : (objKeys o).Nodup) : (objKeys (objSet o k v)).Nodup := by
  rw [objKeys_objSet]
  split
  · exact hnodup
  · rename_i hk
    rw [List.nodup_append]
    refine ⟨hnodup, List.nodup_singleton k, ?_⟩
    intro a ha hb
    simp only [List.mem_singleton] at hb
    subst hb
    exact hk ha

theorem objSet_of_not_mem {α : Type} (o : Obj α) (k : Key) (v : α) (hk : k ∉ objKeys o) :
    objSet o k v = o ++ [(k, v)] := by
  induction o with
  | nil => rfl
  | cons p rest ih =>
    obtain ⟨k0, x⟩ := p
    have hkeys : objKeys ((k0, x) :: rest) = k0 :: objKeys rest := rfl
    rw [hkeys, List.mem_cons, not_or] at hk
    have hne : ¬ k0 = k := fun e => hk.1 e.symm
    simp only [objSet, hne, if_false, List.cons_append, ih hk.2]

/-- Merging an object with distinct names into one that shares none of them appends it. -/
theorem objAssign_append {α : Type} (source : Obj α) :
    ∀ target : Obj α, (objKeys (target ++ source)).Nodup →
      objAssign target source = target ++ source := by
  induction source with
  | nil => intro target _; simp [objAssign]
  | cons p rest ih =>
    obtain ⟨k, v⟩ := p
    intro target hnodup
    have hk : k ∉ objKeys target := by
      intro hmem
      simp only [objKeys, List.map_append, List.map_cons] at hnodup hmem
      rw [List.nodup_append] at hnodup
      exact hnodup.2.2 hmem (List.mem_cons_self _ _)
    have hstep : objAssign target ((k, v) :: rest) = objAssign (objSet target k v) rest := rfl
    rw [hstep, objSet_of_not_mem target k v hk, ih (target ++ [(k, v)])]
    · simp
    · simpa using hnodup

theorem objAssign_nil {α : Type} (source : Obj α) (hnodup : (objKeys source).Nodup) :
    objAssign [] source = source := by
  simpa using objAssign_append source [] (by simpa using hnodup)

/-- The local state object built by the loop has distinct names. -/
theorem resolveEntries_patch_nodup (queries : Obj QueryDef) (props : Props) :
    ∀ (entries : Obj QueryDef) (acc : Obj Value) (s : Sys), (objKeys acc).Nodup →
      ∀ patch, (resolveEntries queries props entries acc s).1 = Except.ok patch →
        (objKeys patch).Nodup := by
  intro entries
  induction entries with
  | nil =>
    intro acc s hacc patch hok
    simp only [resolveEntries] at hok
    cases hok
    exact hacc
  | cons p rest ih =>
    obtain ⟨k0, q0⟩ := p
    intro acc s hacc patch hok
    obtain ⟨b, s1, acc1, -, hstep, hfalse, htrue⟩ :=
      resolveEntries_cons_ok queries props k0 q0 rest acc patch s hok
    rw [hstep] at hok
    refine ih acc1 s1 ?_ patch hok
    cases b with
    | false => rw [hfalse rfl]; exact hacc
    | true =>
      obtain ⟨v, -, e⟩ := htrue rfl
      rw [e]
      exact objKeys_objSet_nodup acc k0 v hacc

/-- The loop ends well when every candidate is either the held entry or a handle that
replaces an entry the constructor has set up. -/
theorem resolveEntries_total (queries : Obj QueryDef) (props : Props) :
    ∀ (entries : Obj QueryDef) (acc : Obj Value) (s : Sys),
      (objKeys entries).Nodup →
      (∀ k q, (k, q) ∈ entries → objGet queries k = some q) →
      (∀ k q, (k, q) ∈ entries → q.fn props = heldAt s.results k ∨
        ((∃ h, q.fn props = Ref.handle h) ∧ heldAt s.results k ≠ Ref.undefined)) →
      ∃ patch, (resolveEntries queries props entries acc s).1 = Except.ok patch := by
  intro entries
  induction entries with
  | nil => intro acc s _ _ _; exact ⟨acc, rfl⟩
  | cons p rest ih =>
    obtain ⟨k0, q0⟩ := p
    intro acc s hnodup hq hc
    have hkeys : objKeys ((k0, q0) :: rest) = k0 :: objKeys rest := rfl
    rw [hkeys, List.nodup_cons] at hnodup
    have hrest : ∀ s1, (∀ k1, k1 ≠ k0 → heldAt s1.results k1 = heldAt s.results k1) →
        ∀ acc1, ∃ patch, (resolveEntries queries props rest acc1 s1).1 = Except.ok patch := by
      intro s1 hs1 acc1
      refine ih acc1 s1 hnodup.2 (fun k q hm => hq k q (List.mem_cons_of_mem _ hm)) ?_
      intro k q hm
      have hne : k ≠ k0 := by
        intro e; subst e
        exact hnodup.1 (mem_objKeys_of_mem rest k q hm)
      rw [hs1 k hne]
      exact hc k q (List.mem_cons_of_mem _ hm)
    have hattach : ∀ h w1, updateQuery s k0 q0 props =
        (Except.ok true,
          { s with world := w1, results := objSet s.results k0 (Ref.handle h) }) →
        ∃ patch, (resolveEntries queries props ((k0, q0) :: rest) acc s).1 =
          Except.ok patch := by
      intro h w1 hU
      obtain ⟨v, hv⟩ :=
        getResult_handle_ok queries w1 k0 q0 h (hq k0 q0 (List.mem_cons_self _ _))
      obtain ⟨patch, hp⟩ :=
        hrest { s with world := w1, results := objSet s.results k0 (Ref.handle h) }
          (fun k1 hk1 => heldAt_objSet_ne s.results k0 k1 _ hk1) (objSet acc k0 v)
      refine ⟨patch, ?_⟩
      simp only [resolveEntries, hU, heldAt_objSet_self, hv]
      exact hp
    by_cases hsame : q0.fn props = heldAt s.results k0
    · obtain ⟨patch, hp⟩ := hrest s (fun _ _ => rfl) acc
      refine ⟨patch, ?_⟩
      simp only [resolveEntries, updateQuery_same s k0 q0 props hsame]
      exact hp
    · rcases hc k0 q0 (List.mem_cons_self _ _) with hs | ⟨⟨h, hch⟩, hdef⟩
      · exact absurd hs hsame
      · cases hheld : heldAt s.results k0 with
        | undefined => exact absurd hheld hdef
        | null => exact hattach h _ (updateQuery_attach_null s k0 q0 props h hch hheld)
        | handle h0 =>
          have hne : h ≠ h0 := by
            intro e; apply hsame; rw [hch, hheld, e]
          exact hattach h _ (updateQuery_attach_handle s k0 q0 props h h0 hch hheld hne)

/-! ## Construction, unmount and the invariant -/

theorem objGet_foldl_null (keys : List Key) :
    ∀ (r : Obj Ref) (k : Key),
      objGet (keys.foldl (fun r key => objSet r key Ref.null) r) k =
        if k ∈ keys then some Ref.null else objGet r k := by
  induction keys with
  | nil => intro r k; simp
  | cons k0 rest ih =>
    intro r k
    rw [List.foldl_cons, ih]
    by_cases hk : k ∈ rest
    · simp [hk]
    · by_cases hk0 : k = k0
      · subst hk0
        simp [hk, objGet_objSet_self]
      · simp [hk, hk0, objGet_objSet_ne r k0 k Ref.null hk0]

/-- After the constructor, every key of the query map holds `null`. -/
theorem heldAt_construct (queries : Obj QueryDef) (id : Nat) (props : Props) (w : World)
    (k : Key) (hk : k ∈ objKeys queries) :
    heldAt (construct queries id props w).results k = Ref.null := by
  simp [heldAt, construct, objGet_foldl_null, hk]

theorem weakInv_construct (queries : Obj QueryDef) (id : Nat) (props : Props) (w : World)
    (hfresh : w.freshFor id) : WeakInv (construct queries id props w) := by
  intro key h
  have : (construct queries id props w).world.registered h
      (listenerOf (construct queries id props w) key) = 0 := hfresh h key
  rw [this]
  exact Nat.zero_le _

theorem weakInv_setState (s : Sys) (patch : Obj Value) (hinv : WeakInv s) :
    WeakInv (setState s patch) := hinv

theorem getStateFromProps_weakInv (queries : Obj QueryDef) (s : Sys) (props : Props)
    (hinv : WeakInv s) : WeakInv (getStateFromProps queries s props).2 :=
  (resolveEntries_frame queries props queries [] s).2.2.2.2.2.2.2.2 hinv

theorem componentDidMount_weakInv (queries : Obj QueryDef) (s : Sys) (hinv : WeakInv s) :
    WeakInv (componentDidMount queries s).2 := by
  have h1 := getStateFromProps_weakInv queries s s.props hinv
  unfold componentDidMount
  cases hG : getStateFromProps queries s s.props with
  | mk r s1 =>
    rw [hG] at h1
    cases r with
    | error e => exact h1
    | ok patch => exact weakInv_setState s1 patch h1

theorem componentWillReceiveProps_weakInv (queries : Obj QueryDef) (s : Sys)
    (nextProps : Props) (hinv : WeakInv s) :
    WeakInv (componentWillReceiveProps queries s nextProps).2 := by
  have h1 := getStateFromProps_weakInv queries s nextProps hinv
  unfold componentWillReceiveProps
  cases hG : getStateFromProps queries s nextProps with
  | mk r s1 =>
    rw [hG] at h1
    cases r with
    | error e => exact h1
    | ok patch => exact weakInv_setState s1 patch h1

theorem onChange_weakInv (queries : Obj QueryDef) (s : Sys) (key : Key) (results : Ref)
    (changes : Changes) (hinv : WeakInv s) :
    WeakInv (onChange queries s key results changes).2 := by
  unfold onChange onChangeWith
  split
  · split
    · exact hinv
    · exact weakInv_setState s _ hinv
  · exact hinv

/-- The loop of `removeListeners` keeps the instance fields and only drops registrations. -/
theorem removeEntries_frame :
    ∀ (entries : Obj Ref) (s : Sys),
      (removeEntries entries s).2.id = s.id ∧
      (removeEntries entries s).2.props = s.props ∧
      (removeEntries entries s).2.results = s.results ∧
      (removeEntries entries s).2.state = s.state ∧
      (removeEntries entries s).2.merges = s.merges ∧
      (∀ h l, (removeEntries entries s).2.world.registered h l ≤ s.world.registered h l) ∧
      (∀ h, ((removeEntries entries s).2.world.sets h).items = (s.world.sets h).items) := by
  intro entries
  induction entries with
  | nil =>
    intro s
    exact ⟨rfl, rfl, rfl, rfl, rfl, fun _ _ => Nat.le_refl _, fun _ => rfl⟩
  | cons p rest ih =>
    obtain ⟨k, r⟩ := p
    intro s
    cases r with
    | undefined => exact ⟨rfl, rfl, rfl, rfl, rfl, fun _ _ => Nat.le_refl _, fun _ => rfl⟩
    | null => exact ⟨rfl, rfl, rfl, rfl, rfl, fun _ _ => Nat.le_refl _, fun _ => rfl⟩
    | handle h0 =>
      obtain ⟨i1, i2, i3, i4, i5, i6, i7⟩ :=
        ih { s with world := s.world.removeListener h0 (listenerOf s k) }
      simp only [removeEntries]
      refine ⟨i1, i2, i3, i4, i5, ?_, ?_⟩
      · intro h l
        refine Nat.le_trans (i6 h l) ?_
        simp only [registered_removeListener]
        split
        · exact Nat.zero_le _
        · exact Nat.le_refl _
      · intro h
        rw [i7 h]
        exact items_removeListener _ _ _ _

theorem componentWillUnmount_weakInv (s : Sys) (hinv : WeakInv s) :
    WeakInv (componentWillUnmount s).2 := by
  obtain ⟨i1, -, i3, -, -, i6, -⟩ := removeEntries_frame s.results s
  intro key h
  have hl : listenerOf (componentWillUnmount s).2 key = listenerOf s key := by
    simp [listenerOf, componentWillUnmount, removeListeners, i1]
  rw [hl]
  have hr : (componentWillUnmount s).2.results = s.results := i3
  rw [hr]
  exact Nat.le_trans (i6 h _) (hinv key h)

/-- In every reachable state a key's closure is registered at most once, and only on the
handle held for that key. -/
theorem reachable_weakInv (queries : Obj QueryDef) (s : Sys) (hs : Reachable queries s) :
    WeakInv s := by
  induction hs with
  | init id props w hfresh => exact weakInv_construct queries id props w hfresh
  | mount s _ ih => exact componentDidMount_weakInv queries s ih
  | receiveProps s nextProps _ ih => exact componentWillReceiveProps_weakInv queries s nextProps ih
  | assignProps s nextProps _ ih => exact ih
  | notify s key results changes _ ih => exact onChange_weakInv queries s key results changes ih
  | unmount s _ ih => exact componentWillUnmount_weakInv s ih
  | engine s w _ hown ih =>
    intro key h
    have : ({ s with world := w } : Sys).world.registered h
        (listenerOf { s with world := w } key) = s.world.registered h (listenerOf s key) :=
      hown h key
    rw [this]
    exact ih key h

/-! ## Unmount without `null` entries, and entries that exist -/

theorem mem_of_objGet {α : Type} (o : Obj α) (k : Key) (v : α) (hget : objGet o k = some v) :
    (k, v) ∈ o := by
  induction o with
  | nil => cases hget
  | cons p rest ih =>
    obtain ⟨k0, x⟩ := p
    by_cases hk : k0 = k
    · subst hk
      simp only [objGet, if_true] at hget
      cases hget
      exact List.mem_cons_self _ _
    · simp only [objGet, hk, if_false] at hget
      exact List.mem_cons_of_mem _ (ih hget)

/-- When every listed entry is a handle, the loop of `removeListeners` returns, and the
closure of each listed key is no longer registered on the handle listed for it. -/
theorem removeEntries_handles :
    ∀ (entries : Obj Ref) (s : Sys),
      (∀ k r, (k, r) ∈ entries → ∃ h, r = Ref.handle h) →
      (removeEntries entries s).1 = Except.ok () ∧
      ∀ k h, (k, Ref.handle h) ∈ entries →
        (removeEntries entries s).2.world.registered h (listenerOf s k) = 0 := by
  intro entries
  induction entries with
  | nil =>
    intro s _
    exact ⟨rfl, fun _ _ hm => by cases hm⟩
  | cons p rest ih =>
    obtain ⟨k0, r0⟩ := p
    intro s hall
    obtain ⟨h0, hr0⟩ := hall k0 r0 (List.mem_cons_self _ _)
    subst hr0
    obtain ⟨i1, i2⟩ := ih { s with world := s.world.removeListener h0 (listenerOf s k0) }
      (fun k r hm => hall k r (List.mem_cons_of_mem _ hm))
    obtain ⟨-, -, -, -, -, fle, -⟩ :=
      removeEntries_frame rest { s with world := s.world.removeListener h0 (listenerOf s k0) }
    simp only [removeEntries]
    refine ⟨i1, ?_⟩
    intro k h hm
    rcases List.mem_cons.mp hm with e | hm1
    · cases e
      refine Nat.le_antisymm (Nat.le_trans (fle _ _) ?_) (Nat.zero_le _)
      simp [registered_removeListener]
    · exact i2 k h hm1

/-- Without a `null` entry the unmount hook detaches everything: in a reachable state
whose entries of `this.results` are all handles, it returns, and afterwards none of the
closures of the instance is registered on any handle. -/
theorem unmount_detaches_all (queries : Obj QueryDef) (s : Sys) (hs : Reachable queries s)
    (hall : ∀ k r, (k, r) ∈ s.results → ∃ h, r = Ref.handle h) :
    (componentWillUnmount s).1 = Except.ok () ∧
    ∀ key h, (componentWillUnmount s).2.world.registered h (listenerOf s key) = 0 := by
  have hinv := reachable_weakInv queries s hs
  obtain ⟨hok, hclear⟩ := removeEntries_handles s.results s hall
  obtain ⟨-, -, -, -, -, fle, -⟩ := removeEntries_frame s.results s
  refine ⟨hok, ?_⟩
  intro key h
  by_cases hheld : heldAt s.results key = Ref.handle h
  · have hget : objGet s.results key = some (Ref.handle h) := by
      unfold heldAt at hheld
      cases hg : objGet s.results key with
      | none => rw [hg] at hheld; cases hheld
      | some r => rw [hg] at hheld; exact congrArg some hheld
    exact hclear key h (mem_of_objGet s.results key _ hget)
  · have hb := hinv key h
    simp only [hheld, if_false] at hb
    exact Nat.le_antisymm (Nat.le_trans (fle h (listenerOf s key)) hb) (Nat.zero_le _)

/-- A property of the state that every `updateQuery` call preserves is preserved by the
loop of `getStateFromProps`, however the loop ends. -/
theorem resolveEntries_preserves (queries : Obj QueryDef) (props : Props) (P : Sys → Prop)
    (hstep : ∀ s key q, P s → P (updateQuery s key q props).2) :
    ∀ (entries : Obj QueryDef) (acc : Obj Value) (s : Sys),
      P s → P (resolveEntries queries props entries acc s).2 := by
  intro entries
  induction entries with
  | nil => intro acc s hP; exact hP
  | cons p rest ih =>
    obtain ⟨k0, q0⟩ := p
    intro acc s hP
    have h1 := hstep s k0 q0 hP
    cases hU : updateQuery s k0 q0 props with
    | mk r s1 =>
      rw [hU] at h1
      cases r with
      | error e =>
        simp only [resolveEntries, hU]
        exact h1
      | ok b =>
        cases b with
        | false =>
          simp only [resolveEntries, hU]
          exact ih acc s1 h1
        | true =>
          simp only [resolveEntries, hU]
          cases hG : getResult queries s1.world k0 (heldAt s1.results k0) with
          | error e => exact h1
          | ok v => exact ih (objSet acc k0 v) s1 h1

/-- An entry of `this.results` that exists is never removed by `updateQuery`. -/
theorem updateQuery_entry_defined (s : Sys) (key : Key) (q : QueryDef) (props : Props)
    (k1 : Key) (hdef : heldAt s.results k1 ≠ Ref.undefined) :
    heldAt (updateQuery s key q props).2.results k1 ≠ Ref.undefined := by
  by_cases hk : k1 = key
  · subst hk
    rcases updateQuery_cases s k1 q props with ⟨-, e⟩ | ⟨-, e⟩ | ⟨-, -, e⟩ | ⟨h, -, -, e⟩ |
      ⟨h, h0, -, -, -, e⟩ | ⟨h0, err, -, e⟩ <;> rw [e]
    · exact hdef
    · exact hdef
    · exact hdef
    · simp [heldAt_objSet_self]
    · simp [heldAt_objSet_self]
    · exact hdef
  · rw [(updateQuery_frame s key q props).2.2.2.2.1 k1 hk]
    exact hdef

/-- In every reachable state each key of the query map has an entry in `this.results`
(`null` or a handle). -/
theorem reachable_entry_defined (queries : Obj QueryDef) (s : Sys)
    (hs : Reachable queries s) (k : Key) (hk : k ∈ objKeys queries) :
    heldAt s.results k ≠ Ref.undefined := by
  have hloop : ∀ (s : Sys) (props : Props), heldAt s.results k ≠ Ref.undefined →
      heldAt (getStateFromProps queries s props).2.results k ≠ Ref.undefined := by
    intro s props hdef
    exact resolveEntries_preserves queries props
      (fun s => heldAt s.results k ≠ Ref.undefined)
      (fun s key q hP => updateQuery_entry_defined s key q props k hP) queries [] s hdef
  induction hs with
  | init id props w hfresh =>
    rw [heldAt_construct queries id props w k hk]
    simp
  | mount s _ ih =>
    have h1 := hloop s s.props ih
    unfold componentDidMount
    cases hG : getStateFromProps queries s s.props with
    | mk r s1 =>
      rw [hG] at h1
      cases r with
      | error e => exact h1
      | ok patch => exact h1
  | receiveProps s nextProps _ ih =>
    have h1 := hloop s nextProps ih
    unfold componentWillReceiveProps
    cases hG : getStateFromProps queries s nextProps with
    | mk r s1 =>
      rw [hG] at h1
      cases r with
      | error e => exact h1
      | ok patch => exact h1
  | assignProps s nextProps _ ih => exact ih
  | notify s key results changes _ ih =>
    unfold onChange onChangeWith
    split
    · split
      · exact ih
      · exact ih
    · exact ih
  | unmount s _ ih =>
    have hr : (componentWillUnmount s).2.results = s.results :=
      (removeEntries_frame s.results s).2.2.1
    rw [hr]
    exact ih
  | engine s w _ _ ih => exact ih

/-! ## Merging objects: which value a name gets -/

/-- After merging a source with distinct names into a target, a name reads as its value
in the source if it has one there, and as its value in the target otherwise. -/
theorem objGet_objAssign {α : Type} (source : Obj α) :
    ∀ (target : Obj α) (k : Key), (objKeys source).Nodup →
      objGet (objAssign target source) k =
        match objGet source k with
        | some v => some v
        | none => objGet target k := by
  induction source with
  | nil => intro target k _; rfl
  | cons p rest ih =>
    obtain ⟨k0, v0⟩ := p
    intro target k hnodup
    have hkeys : objKeys ((k0, v0) :: rest) = k0 :: objKeys rest := rfl
    rw [hkeys, List.nodup_cons] at hnodup
    have hstep : objAssign target ((k0, v0) :: rest) = objAssign (objSet target k0 v0) rest :=
      rfl
    rw [hstep, ih (objSet target k0 v0) k hnodup.2]
    by_cases hk : k0 = k
    · subst hk
      have hnone : objGet rest k0 = none := by
        cases hg : objGet rest k0 with
        | none => rfl
        | some v => exact absurd (mem_objKeys_of_mem rest k0 v (mem_of_objGet rest k0 v hg)) hnodup.1
      simp [objGet, hnone, objGet_objSet_self]
    · have hk2 : k ≠ k0 := fun e => hk e.symm
      simp only [objGet, hk, if_false]
      cases objGet rest k with
      | none => exact objGet_objSet_ne target k0 k v0 hk2
      | some v => rfl

/-! ## The registry invariant -/

/-- A call of `updateQuery` keeps the registry invariant, unless it is made for a key that
holds a handle with a candidate that is not a handle. -/
theorem updateQuery_strongInv (s : Sys) (key : Key) (q : QueryDef) (props : Props)
    (hweak : WeakInv s) (hstrong : StrongInv s)
    (hkeep : ∀ h, heldAt s.results key = Ref.handle h → ∃ h1, q.fn props = Ref.handle h1) :
    StrongInv (updateQuery s key q props).2 := by
  intro k1 h hheld1
  obtain ⟨hid, -, -, -, fheld, freg, -⟩ := updateQuery_frame s key q props
  have hl : listenerOf (updateQuery s key q props).2 k1 = listenerOf s k1 := by
    simp [listenerOf, hid]
  rw [hl]
  by_cases hk : k1 = key
  · subst hk
    rcases updateQuery_cases s k1 q props with ⟨-, e⟩ | ⟨-, e⟩ | ⟨-, -, e⟩ | ⟨h2, hn, -, e⟩ |
      ⟨h2, h0, hh, -, hne, e⟩ | ⟨h0, err, hh, e⟩
    · rw [e] at hheld1 ⊢
      exact hstrong k1 h hheld1
    · rw [e] at hheld1 ⊢
      exact hstrong k1 h hheld1
    · rw [e] at hheld1 ⊢
      exact hstrong k1 h hheld1
    · rw [e] at hheld1 ⊢
      simp only [heldAt_objSet_self] at hheld1
      cases hheld1
      have hz : s.world.registered h (listenerOf s k1) = 0 := by
        have hb := hweak k1 h
        simpa [hn] using hb
      simp [registered_addListener, hz]
    · rw [e] at hheld1 ⊢
      simp only [heldAt_objSet_self] at hheld1
      cases hheld1
      have hz : s.world.registered h (listenerOf s k1) = 0 := by
        have hb := hweak k1 h
        rw [hh] at hb
        have hne2 : ¬ h0 = h := fun e => hne e.symm
        simpa [hne2] using hb
      simp [registered_addListener, registered_removeListener, hne, hz]
    · exfalso
      obtain ⟨h1, hc⟩ := hkeep h0 hh
      by_cases hsame : h1 = h0
      · rw [updateQuery_same s k1 q props (by rw [hc, hh, hsame])] at e
        cases e
      · rw [updateQuery_attach_handle s k1 q props h1 h0 hc hh hsame] at e
        cases e
  · rw [fheld k1 hk] at hheld1
    rw [freg h _ (listenerOf_ne s key k1 hk)]
    exact hstrong k1 h hheld1

/-- The loop of `getStateFromProps` keeps the registry invariant when every key that holds
a handle gets a handle as its candidate, however the loop ends. -/
theorem resolveEntries_strongInv (queries : Obj QueryDef) (props : Props) :
    ∀ (entries : Obj QueryDef) (acc : Obj Value) (s : Sys),
      (objKeys entries).Nodup → WeakInv s → StrongInv s →
      (∀ k q, (k, q) ∈ entries → ∀ h, heldAt s.results k = Ref.handle h →
        ∃ h1, q.fn props = Ref.handle h1) →
      StrongInv (resolveEntries queries props entries acc s).2 := by
  intro entries
  induction entries with
  | nil => intro acc s _ _ hstrong _; exact hstrong
  | cons p rest ih =>
    obtain ⟨k0, q0⟩ := p
    intro acc s hnodup hweak hstrong hkeep
    have hkeys : objKeys ((k0, q0) :: rest) = k0 :: objKeys rest := rfl
    rw [hkeys, List.nodup_cons] at hnodup
    have h1 := updateQuery_strongInv s k0 q0 props hweak hstrong
      (hkeep k0 q0 (List.mem_cons_self _ _))
    have h2 := updateQuery_weakInv s k0 q0 props hweak
    obtain ⟨-, -, -, -, fheld, -, -⟩ := updateQuery_frame s k0 q0 props
    cases hU : updateQuery s k0 q0 props with
    | mk r s1 =>
      rw [hU] at h1 h2 fheld
      simp only at h1 h2 fheld
      have hkeep1 : ∀ k q, (k, q) ∈ rest → ∀ h, heldAt s1.results k = Ref.handle h →
          ∃ h1, q.fn props = Ref.handle h1 := by
        intro k q hm h hh
        have hne : k ≠ k0 := by
          intro e; subst e
          exact hnodup.1 (mem_objKeys_of_mem rest k q hm)
        rw [fheld k hne] at hh
        exact hkeep k q (List.mem_cons_of_mem _ hm) h hh
      cases r with
      | error e =>
        simp only [resolveEntries, hU]
        exact h1
      | ok b =>
        cases b with
        | false =>
          simp only [resolveEntries, hU]
          exact ih acc s1 hnodup.2 h2 h1 hkeep1
        | true =>
          simp only [resolveEntries, hU]
          cases hG : getResult queries s1.world k0 (heldAt s1.results k0) with
          | error e => exact h1
          | ok v => exact ih (objSet acc k0 v) s1 hnodup.2 h2 h1 hkeep1

/-- The steps of `ReachableKeeping` are steps of `Reachable`. -/
theorem reachable_of_keeping (queries : Obj QueryDef) (s : Sys)
    (hs : ReachableKeeping queries s) : Reachable queries s := by
  induction hs with
  | init id props w hfresh => exact Reachable.init id props w hfresh
  | mount s _ _ ih => exact Reachable.mount s ih
  | receiveProps s nextProps _ _ ih => exact Reachable.receiveProps s nextProps ih
  | assignProps s nextProps _ ih => exact Reachable.assignProps s nextProps ih
  | notify s key results changes _ ih => exact Reachable.notify s key results changes ih
  | engine s w _ hown ih => exact Reachable.engine s w ih hown

theorem getStateFromProps_strongInv (queries : Obj QueryDef) (s : Sys) (props : Props)
    (hnodup : (objKeys queries).Nodup) (hweak : WeakInv s) (hstrong : StrongInv s)
    (hkeep : KeepsHandles queries s props) :
    StrongInv (getStateFromProps queries s props).2 :=
  resolveEntries_strongInv queries props queries [] s hnodup hweak hstrong hkeep

/-- The registry invariant holds in every state of `ReachableKeeping`. -/
theorem keeping_strongInv (queries : Obj QueryDef) (hnodup : (objKeys queries).Nodup)
    (s : Sys) (hs : ReachableKeeping queries s) : StrongInv s := by
  induction hs with
  | init id props w hfresh =>
    intro key h hheld
    exfalso
    unfold heldAt construct at hheld
    simp only [objGet_foldl_null] at hheld
    split at hheld
    · cases hheld
    · cases hheld
  | mount s hs hkeep ih =>
    have hweak := reachable_weakInv queries s (reachable_of_keeping queries s hs)
    have h1 := getStateFromProps_strongInv queries s s.props hnodup hweak ih hkeep
    unfold componentDidMount
    cases hG : getStateFromProps queries s s.props with
    | mk r s1 =>
      rw [hG] at h1
      cases r with
      | error e => exact h1
      | ok patch => exact h1
  | receiveProps s nextProps hs hkeep ih =>
    have hweak := reachable_weakInv queries s (reachable_of_keeping queries s hs)
    have h1 := getStateFromProps_strongInv queries s nextProps hnodup hweak ih hkeep
    unfold componentWillReceiveProps
    cases hG : getStateFromProps queries s nextProps with
    | mk r s1 =>
      rw [hG] at h1
      cases r with
      | error e => exact h1
      | ok patch => exact h1
  | assignProps s nextProps _ ih => exact ih
  | notify s key results changes _ ih =>
    unfold onChange onChangeWith
    split
    · split
      · exact ih
      · exact ih
    · exact ih
  | engine s w _ hown ih =>
    intro key h hheld
    have : ({ s with world := w } : Sys).world.registered h
        (listenerOf { s with world := w } key) = s.world.registered h (listenerOf s key) :=
      hown h key
    rw [this]
    exact ih key h hheld

/-! ## Unmount that returns, notifications after unmount, and `createElement` -/

/-- When the loop of `removeListeners` returns, every listed entry is a handle. -/
theorem removeEntries_ok_handles :
    ∀ (entries : Obj Ref) (s : Sys), (removeEntries entries s).1 = Except.ok () →
      ∀ k r, (k, r) ∈ entries → ∃ h, r = Ref.handle h := by
  intro entries
  induction entries with
  | nil => intro s _ k r hm; cases hm
  | cons p rest ih =>
    obtain ⟨k0, r0⟩ := p
    intro s hok k r hm
    cases r0 with
    | undefined => simp [removeEntries] at hok
    | null => simp [removeEntries] at hok
    | handle h0 =>
      simp only [removeEntries] at hok
      rcases List.mem_cons.mp hm with e | hm1
      · cases e
        exact ⟨h0, rfl⟩
      · exact ih _ hok k r hm1

/-- With a query map whose first definition returns `null` and whose second returns
handle 1, the mount hook succeeds, the unmount hook throws a `TypeError` on the `null`
entry, and the listener of the second key is still registered on handle 1. -/
theorem unmount_throw_keeps_later_listener :
    (mountFresh nullQueries 0 [] sampleWorld).1 = Except.ok () ∧
    (mountFresh nullQueries 0 [] sampleWorld).2.results =
      [("a", Ref.null), ("b", Ref.handle 1)] ∧
    (componentWillUnmount (mountFresh nullQueries 0 [] sampleWorld).2).1 =
      Except.error Err.typeError ∧
    (componentWillUnmount (mountFresh nullQueries 0 [] sampleWorld).2).2.world.registered 1
      { owner := 0, key := "b" } = 1 := by
  decide

/-- The mounted `onChange` is `onChangeWith` on the mounted state container. -/
theorem onChange_eq_onChangeWith (queries : Obj QueryDef) (s : Sys) (key : Key)
    (results : Ref) (changes : Changes) :
    onChange queries s key results changes =
      onChangeWith setState queries s key results changes := rfl

/-- A payload with a non-empty list passes the test of `onChange`. -/
theorem changes_any_of_ne_nil (changes : Changes)
    (hany : changes.modifications ≠ [] ∨ changes.insertions ≠ [] ∨ changes.deletions ≠ []) :
    changes.any = true := by
  unfold Changes.any
  rcases hany with hm | hi | hd
  · cases hc : changes.modifications with
    | nil => exact absurd hc hm
    | cons a l => simp
  · cases hc : changes.insertions with
    | nil => exact absurd hc hi
    | cons a l => simp
  · cases hc : changes.deletions with
    | nil => exact absurd hc hd
    | cons a l => simp

/-- Reading a name in an object filtered by a test on names. -/
theorem objGet_filter_keys {α : Type} (keep : Key → Bool) (o : Obj α) (k : Key) :
    objGet (o.filter (fun kv => keep kv.1)) k = if keep k = true then objGet o k else none := by
  induction o with
  | nil => simp [objGet]
  | cons p rest ih =>
    obtain ⟨k0, v0⟩ := p
    by_cases hkeep : keep k0 = true
    · rw [List.filter_cons_of_pos (by simpa using hkeep)]
      by_cases hk : k0 = k
      · subst hk
        simp [objGet, hkeep]
      · simp only [objGet, hk, if_false]
        exact ih
    · have hfalse : keep k0 = false := by simpa using hkeep
      rw [List.filter_cons_of_neg (by simp [hfalse])]
      by_cases hk : k0 = k
      · subst hk
        rw [ih]
        simp [hfalse]
      · simp only [objGet, hk, if_false]
        exact ih

/-- After the defaults loop a name reads as its value in `props` if it has one, and as its
default otherwise. -/
theorem objGet_fillDefaults (defaults : Obj Value) :
    ∀ (props : Obj Value) (k : Key),
      objGet (fillDefaults defaults props) k =
        match objGet props k with
        | some v => some v
        | none => objGet defaults k := by
  induction defaults with
  | nil =>
    intro props k
    have hnil : fillDefaults [] props = props := rfl
    rw [hnil]
    cases objGet props k <;> rfl
  | cons p rest ih =>
    obtain ⟨k0, v0⟩ := p
    intro props k
    have hstep : fillDefaults ((k0, v0) :: rest) props =
        fillDefaults rest
          (if (objGet props k0).isNone then objSet props k0 v0 else props) := rfl
    rw [hstep, ih]
    cases hp0 : objGet props k0 with
    | none =>
      simp only [Option.isNone_none, if_true]
      by_cases hk : k0 = k
      · subst hk
        simp [objGet_objSet_self, hp0, objGet]
      · have hk2 : k ≠ k0 := fun e => hk e.symm
        rw [objGet_objSet_ne props k0 k v0 hk2]
        simp only [objGet, hk, if_false]
    | some x =>
      simp only [Option.isNone_some, Bool.false_eq_true, if_false]
      by_cases hk : k0 = k
      · subst hk
        simp [hp0]
      · simp only [objGet, hk, if_false]

/-! ## Claims -/

/-- Claim C1, as stated, fails: with a query definition that returns `null`, the mount
hook on a fresh instance completes, yet the view state has no value for that key. -/
theorem C1_null_query_counterexample :
    sampleWorld.freshFor 0 ∧
    (mountFresh nullQueries 0 [] sampleWorld).1 = Except.ok () ∧
    ¬ (∀ key, key ∈ objKeys nullQueries →
        ∃ v, objGet (mountFresh nullQueries 0 [] sampleWorld).2.state key = some v) := by
  refine ⟨fun _ _ => rfl, rfl, ?_⟩
  intro hall
  obtain ⟨v, hv⟩ := hall "a" (by decide)
  have hnone : objGet (mountFresh nullQueries 0 [] sampleWorld).2.state "a" = none := by decide
  rw [hnone] at hv
  cases hv

/-- Claim C1 (amended): on a freshly constructed instance the mount hook completes
whenever no query definition returns `undefined`; and when it completes, it has issued one
state-merge that published the view state, and every key whose query definition returned
a handle holds that handle, has its own listener registered on it exactly once, and has
its shaped value in the view state. -/
theorem C1_mount_resolves_handles (queries : Obj QueryDef) (id : Nat) (props : Props)
    (w : World) (hnodup : (objKeys queries).Nodup) (hfresh : w.freshFor id) :
    ((∀ k q, (k, q) ∈ queries → q.fn props ≠ Ref.undefined) →
      (mountFresh queries id props w).1 = Except.ok ()) ∧
    ((mountFresh queries id props w).1 = Except.ok () →
      (mountFresh queries id props w).2.merges = [(mountFresh queries id props w).2.state] ∧
      ∀ key q h, (key, q) ∈ queries → q.fn props = Ref.handle h →
        heldAt (mountFresh queries id props w).2.results key = Ref.handle h ∧
        (mountFresh queries id props w).2.world.registered h { owner := id, key := key } = 1 ∧
        ∃ v, getResult queries (mountFresh queries id props w).2.world key (Ref.handle h) =
            Except.ok v ∧
          objGet (mountFresh queries id props w).2.state key = some v) := by
  have hinv := weakInv_construct queries id props w hfresh
  have hheld0 : ∀ k q, (k, q) ∈ queries →
      heldAt (construct queries id props w).results k = Ref.null :=
    fun k q hm => heldAt_construct queries id props w k (mem_objKeys_of_mem queries k q hm)
  have hunf : mountFresh queries id props w =
      match resolveEntries queries props queries [] (construct queries id props w) with
      | (Except.error e, s1) => (Except.error e, s1)
      | (Except.ok patch, s1) => (Except.ok (), setState s1 patch) := rfl
  obtain ⟨-, -, fstate, fmerges, -, -, fitems, -, -⟩ :=
    resolveEntries_frame queries props queries [] (construct queries id props w)
  refine ⟨?_, ?_⟩
  · intro hdef
    obtain ⟨patch, hp⟩ := resolveEntries_total queries props queries []
      (construct queries id props w) hnodup
      (fun k q hm => objGet_of_mem queries k q hnodup hm)
      (by
        intro k q hm
        rw [hheld0 k q hm]
        cases hc : q.fn props with
        | undefined => exact absurd hc (hdef k q hm)
        | null => exact Or.inl rfl
        | handle h => exact Or.inr ⟨⟨h, rfl⟩, by simp⟩)
    rw [hunf]
    cases hR : resolveEntries queries props queries [] (construct queries id props w) with
    | mk r s1 =>
      rw [hR] at hp
      simp only at hp
      subst hp
      rfl
  · intro hok
    rw [hunf] at hok ⊢
    cases hR : resolveEntries queries props queries [] (construct queries id props w) with
    | mk r s1 =>
      rw [hR] at hok fstate fmerges fitems
      cases r with
      | error e => cases hok
      | ok patch =>
        simp only at fstate fmerges fitems ⊢
        have hpn : (objKeys patch).Nodup :=
          resolveEntries_patch_nodup queries props queries []
            (construct queries id props w) List.nodup_nil patch (by rw [hR])
        have hst : (setState s1 patch).state = patch := by
          simp only [setState, fstate]
          exact objAssign_nil patch hpn
        refine ⟨?_, ?_⟩
        · rw [hst]
          simp only [setState, fmerges]
          rfl
        · intro key q h hm hc
          obtain ⟨c1, c2, v, c3, c4⟩ := resolveEntries_changed queries props key q h queries []
            (construct queries id props w) hnodup hm hc
            (by rw [hheld0 key q hm]; simp) hinv patch (by rw [hR])
          rw [hR] at c1 c2
          refine ⟨c1, c2, v, ?_, ?_⟩
          · rw [← c3]
            exact getResult_congr_items queries _ _ key _ fitems
          · rw [hst]
            exact c4

/-- Claim C1 (amended) at a concrete input: a list query on handle 1 and a unique query
on handle 2, mounted over an engine that holds two objects in handle 1. -/
theorem C1_mount_resolves_handles_witness :
    (mountFresh sampleQueries 0 [] sampleWorld).1 = Except.ok () ∧
    heldAt (mountFresh sampleQueries 0 [] sampleWorld).2.results "items" = Ref.handle 1 ∧
    (mountFresh sampleQueries 0 [] sampleWorld).2.world.registered 1
      { owner := 0, key := "items" } = 1 ∧
    ∃ v, getResult sampleQueries (mountFresh sampleQueries 0 [] sampleWorld).2.world "items"
        (Ref.handle 1) = Except.ok v ∧
      objGet (mountFresh sampleQueries 0 [] sampleWorld).2.state "items" = some v :=
  have hthm := C1_mount_resolves_handles sampleQueries 0 [] sampleWorld (by decide)
    (fun _ _ => rfl)
  have hok := hthm.1 (by
    intro k q hm
    simp only [sampleQueries, queryMap, List.map_cons, List.map_nil, List.mem_cons,
      Prod.mk.injEq, List.mem_nil_iff, or_false] at hm
    rcases hm with ⟨-, rfl⟩ | ⟨-, rfl⟩ <;> decide)
  ⟨hok, (hthm.2 hok).2 "items" (sampleObjects 10) 1 (List.mem_cons_self _ _) rfl⟩

/-- Claim C2: in a reachable state, when the query definition of a key returns a handle
other than the handle held for that key, `updateQuery` returns true after exactly two
engine calls (the key's listener removed from the old handle, then added to the new one),
stores the new handle as the held one, and leaves the listener registered once on the new
handle and not at all on the old one. -/
theorem C2_handle_change (queries : Obj QueryDef) (s : Sys) (key : Key) (q : QueryDef)
    (props : Props) (hNew hOld : HandleId) (hs : Reachable queries s)
    (hc : q.fn props = Ref.handle hNew) (hheld : heldAt s.results key = Ref.handle hOld)
    (hne : hNew ≠ hOld) :
    (updateQuery s key q props).1 = Except.ok true ∧
    (updateQuery s key q props).2.world.calls =
      s.world.calls ++ [Call.removeListener hOld (listenerOf s key),
        Call.addListener hNew (listenerOf s key)] ∧
    heldAt (updateQuery s key q props).2.results key = Ref.handle hNew ∧
    (updateQuery s key q props).2.world.registered hNew (listenerOf s key) = 1 ∧
    (updateQuery s key q props).2.world.registered hOld (listenerOf s key) = 0 := by
  have hinv := reachable_weakInv queries s hs
  have hzero : s.world.registered hNew (listenerOf s key) = 0 := by
    have := hinv key hNew
    rw [hheld] at this
    have hne2 : ¬ hOld = hNew := fun e => hne e.symm
    simpa [hne2] using this
  have hne2 : ¬ hOld = hNew := fun e => hne e.symm
  rw [updateQuery_attach_handle s key q props hNew hOld hc hheld hne]
  refine ⟨rfl, ?_, heldAt_objSet_self _ _ _, ?_, ?_⟩
  · simp [World.addListener, World.removeListener]
  · simp [registered_addListener, registered_removeListener, hne, hzero]
  · simp [registered_addListener, registered_removeListener, hne2]

/-- Claim C2 at a concrete input: the instance mounted on handle 1 receives inputs for
which its query definition returns handle 2. -/
theorem C2_handle_change_witness :
    (updateQuery switchMounted "a" switchQuery (onProps 2)).1 = Except.ok true ∧
    (updateQuery switchMounted "a" switchQuery (onProps 2)).2.world.calls =
      switchMounted.world.calls ++ [Call.removeListener 1 (listenerOf switchMounted "a"),
        Call.addListener 2 (listenerOf switchMounted "a")] ∧
    heldAt (updateQuery switchMounted "a" switchQuery (onProps 2)).2.results "a" =
      Ref.handle 2 ∧
    (updateQuery switchMounted "a" switchQuery (onProps 2)).2.world.registered 2
      (listenerOf switchMounted "a") = 1 ∧
    (updateQuery switchMounted "a" switchQuery (onProps 2)).2.world.registered 1
      (listenerOf switchMounted "a") = 0 :=
  C2_handle_change switchQueries switchMounted "a" switchQuery (onProps 2) 2 1
    (Reachable.mount _ (Reachable.init 0 (onProps 1) sampleWorld (fun _ _ => rfl)))
    rfl (by decide) (by decide)

/-- Claim C3: when the query definition of a key returns the very entry already held for
that key, `updateQuery` returns false and changes nothing (no engine call, same
registry), and the state object that `getStateFromProps` returns for those inputs has no
entry for that key. -/
theorem C3_same_handle (queries : Obj QueryDef) (s : Sys) (key : Key) (q : QueryDef)
    (props : Props) (hnodup : (objKeys queries).Nodup) (hm : (key, q) ∈ queries)
    (hc : q.fn props = heldAt s.results key) :
    updateQuery s key q props = (Except.ok false, s) ∧
    ∀ patch, (getStateFromProps queries s props).1 = Except.ok patch →
      objGet patch key = none ∧
      heldAt (getStateFromProps queries s props).2.results key = heldAt s.results key := by
  refine ⟨updateQuery_same s key q props hc, ?_⟩
  intro patch hok
  exact resolveEntries_same queries props key q queries [] s hnodup hm hc patch hok

/-- Claim C3 at a concrete input: the instance mounted on handle 1 receives inputs for
which its query definition returns handle 1 again. -/
theorem C3_same_handle_witness :
    updateQuery switchMounted "a" switchQuery (onProps 3) = (Except.ok false, switchMounted) ∧
    (getStateFromProps switchQueries switchMounted (onProps 3)).1 = Except.ok [] ∧
    objGet ([] : Obj Value) "a" = none ∧
    heldAt (getStateFromProps switchQueries switchMounted (onProps 3)).2.results "a" =
      heldAt switchMounted.results "a" :=
  have hthm := C3_same_handle switchQueries switchMounted "a" switchQuery (onProps 3)
    (by decide) (List.mem_cons_self _ _) (by decide)
  ⟨hthm.1, rfl, hthm.2 [] rfl⟩

/-- Claim C4, as stated, fails: while handle 1 is held, a query definition that returns
`null` makes `updateQuery` fail (a `TypeError`) although it did not return `undefined`. -/
theorem C4_null_candidate_counterexample :
    heldAt switchMounted.results "a" = Ref.handle 1 ∧
    ¬ ((∃ e, (updateQuery switchMounted "a" switchQuery []).1 = Except.error e) ↔
        switchQuery.fn [] = Ref.undefined) := by
  refine ⟨by decide, ?_⟩
  intro hiff
  have hfail : ∃ e, (updateQuery switchMounted "a" switchQuery []).1 = Except.error e :=
    ⟨Err.typeError, by decide⟩
  have hundef := hiff.mp hfail
  revert hundef
  decide

/-- Claim C4 (amended): for a key that has an entry in `this.results`, `updateQuery`
raises the configuration error exactly when the query definition returns `undefined`, and
that error carries the offending key and no other; it does not fail when the query
definition returns a handle; and in the `undefined` case the held entries are not replaced,
no `addListener` call is made and no registration is added. -/
theorem C4_configuration_error (s : Sys) (key : Key) (q : QueryDef) (props : Props)
    (hentry : heldAt s.results key ≠ Ref.undefined) :
    (∀ k2, (updateQuery s key q props).1 = Except.error (Err.config k2) ↔
      (k2 = key ∧ q.fn props = Ref.undefined)) ∧
    (∀ h, q.fn props = Ref.handle h → ∃ b, (updateQuery s key q props).1 = Except.ok b) ∧
    (q.fn props = Ref.undefined →
      (updateQuery s key q props).2.results = s.results ∧
      (∀ h l, Call.addListener h l ∈ (updateQuery s key q props).2.world.calls →
        Call.addListener h l ∈ s.world.calls) ∧
      ∀ h l, (updateQuery s key q props).2.world.registered h l ≤ s.world.registered h l) := by
  cases hheld : heldAt s.results key with
  | undefined => exact absurd hheld hentry
  | null =>
    cases hc : q.fn props with
    | undefined =>
      rw [updateQuery_undefined_null s key q props hc hheld]
      refine ⟨?_, ?_, ?_⟩
      · intro k2
        constructor
        · intro e; cases e; exact ⟨rfl, rfl⟩
        · intro e; rw [e.1]
      · intro h e; cases e
      · intro _
        exact ⟨rfl, fun _ _ hmem => hmem, fun _ _ => Nat.le_refl _⟩
    | null =>
      rw [updateQuery_same s key q props (by rw [hc, hheld])]
      refine ⟨?_, ?_, ?_⟩
      · intro k2
        constructor
        · intro e; cases e
        · intro e; cases e.2
      · intro h e; cases e
      · intro e; cases e
    | handle h1 =>
      rw [updateQuery_attach_null s key q props h1 hc hheld]
      refine ⟨?_, ?_, ?_⟩
      · intro k2
        constructor
        · intro e; cases e
        · intro e; cases e.2
      · intro h _; exact ⟨true, rfl⟩
      · intro e; cases e
  | handle h0 =>
    cases hc : q.fn props with
    | undefined =>
      rw [updateQuery_undefined_handle s key q props h0 hc hheld]
      refine ⟨?_, ?_, ?_⟩
      · intro k2
        constructor
        · intro e; cases e; exact ⟨rfl, rfl⟩
        · intro e; rw [e.1]
      · intro h e; cases e
      · intro _
        refine ⟨rfl, ?_, ?_⟩
        · intro h l hmem
          simpa [World.removeListener] using hmem
        · intro h l
          simp only [registered_removeListener]
          split
          · exact Nat.zero_le _
          · exact Nat.le_refl _
    | null =>
      rw [updateQuery_null_handle s key q props h0 hc hheld]
      refine ⟨?_, ?_, ?_⟩
      · intro k2
        constructor
        · intro e; cases e
        · intro e; cases e.2
      · intro h e; cases e
      · intro e; cases e
    | handle h1 =>
      refine ⟨?_, ?_, ?_⟩
      · intro k2
        constructor
        · intro e
          exfalso
          by_cases hne : h1 = h0
          · rw [updateQuery_same s key q props (by rw [hc, hheld, hne])] at e
            cases e
          · rw [updateQuery_attach_handle s key q props h1 h0 hc hheld hne] at e
            cases e
        · intro e; cases e.2
      · intro h _
        by_cases hne : h1 = h0
        · rw [updateQuery_same s key q props (by rw [hc, hheld, hne])]
          exact ⟨false, rfl⟩
        · rw [updateQuery_attach_handle s key q props h1 h0 hc hheld hne]
          exact ⟨true, rfl⟩
      · intro e; cases e

/-- Claim C4 (amended) at a concrete input: the instance mounted on handle 1 receives
inputs for which its query definition returns `undefined`. -/
theorem C4_configuration_error_witness :
    heldAt switchMounted.results "a" ≠ Ref.undefined ∧
    switchQuery.fn (onProps 0) = Ref.undefined ∧
    (updateQuery switchMounted "a" switchQuery (onProps 0)).1 =
      Except.error (Err.config "a") ∧
    (updateQuery switchMounted "a" switchQuery (onProps 0)).2.results =
      switchMounted.results :=
  have hentry : heldAt switchMounted.results "a" ≠ Ref.undefined := by decide
  have hthm := C4_configuration_error switchMounted "a" switchQuery (onProps 0) hentry
  ⟨hentry, rfl, (hthm.1 "a").mpr ⟨rfl, rfl⟩, (hthm.2.2 rfl).1⟩

/-- Claim C5: in every reachable state (so after any sequence of mount and input-change
hooks), once the unmount hook returns, none of the listeners of the instance is registered
on any handle, held now or held before. -/
theorem C5_no_listener_leak (queries : Obj QueryDef) (s : Sys) (hs : Reachable queries s)
    (hret : (componentWillUnmount s).1 = Except.ok ()) :
    ∀ key h, (componentWillUnmount s).2.world.registered h (listenerOf s key) = 0 :=
  (unmount_detaches_all queries s hs (removeEntries_ok_handles s.results s hret)).2

/-- Claim C5 at a concrete input: the instance mounted on handle 1, then moved to handle 2
by an input change, is unmounted; its listener is left neither on handle 2, where it was
registered, nor on handle 1, held before. -/
theorem C5_no_listener_leak_witness :
    (componentWillReceiveProps switchQueries switchMounted (onProps 2)).2.world.registered 2
      (listenerOf (componentWillReceiveProps switchQueries switchMounted (onProps 2)).2 "a") =
        1 ∧
    (componentWillUnmount
      (componentWillReceiveProps switchQueries switchMounted (onProps 2)).2).1 =
        Except.ok () ∧
    (componentWillUnmount
      (componentWillReceiveProps switchQueries switchMounted (onProps 2)).2).2.world.registered 2
      (listenerOf (componentWillReceiveProps switchQueries switchMounted (onProps 2)).2 "a") =
        0 ∧
    (componentWillUnmount
      (componentWillReceiveProps switchQueries switchMounted (onProps 2)).2).2.world.registered 1
      (listenerOf (componentWillReceiveProps switchQueries switchMounted (onProps 2)).2 "a") =
        0 :=
  have hreach : Reachable switchQueries
      (componentWillReceiveProps switchQueries switchMounted (onProps 2)).2 :=
    Reachable.receiveProps _ (onProps 2)
      (Reachable.mount _ (Reachable.init 0 (onProps 1) sampleWorld (fun _ _ => rfl)))
  have hret : (componentWillUnmount
      (componentWillReceiveProps switchQueries switchMounted (onProps 2)).2).1 =
        Except.ok () := by decide
  ⟨by decide, hret,
    C5_no_listener_leak switchQueries _ hreach hret "a" 2,
    C5_no_listener_leak switchQueries _ hreach hret "a" 1⟩

/-- Claim C6: for a key whose query definition carries the unique tag, `getResult` returns
`null` when the result set is empty and its first element otherwise. -/
theorem C6_unique_shaping (queries : Obj QueryDef) (w : World) (key : Key) (q : QueryDef)
    (h : HandleId) (hq : objGet queries key = some q) (hu : q.unique = true) :
    ((w.sets h).items = [] → getResult queries w key (Ref.handle h) = Except.ok Value.null) ∧
    (∀ e rest, (w.sets h).items = e :: rest →
      getResult queries w key (Ref.handle h) = Except.ok (Value.obj e)) := by
  constructor
  · intro hitems
    simp [getResult, hq, hu, hitems]
  · intro e rest hitems
    simp [getResult, hq, hu, hitems]

/-- Claim C6 at concrete inputs: the unique query shaped on the empty handle 3 and on
handle 2, which holds the object 20. -/
theorem C6_unique_shaping_witness :
    getResult sampleQueries sampleWorld "first" (Ref.handle 3) = Except.ok Value.null ∧
    getResult sampleQueries sampleWorld "first" (Ref.handle 2) = Except.ok (Value.obj 20) :=
  ⟨(C6_unique_shaping sampleQueries sampleWorld "first"
      (sampleObjects 20) 3 rfl rfl).1 rfl,
   (C6_unique_shaping sampleQueries sampleWorld "first"
      (sampleObjects 20) 2 rfl rfl).2 20 [] rfl⟩

/-- Claim C7: for a key whose query definition carries no tag, `getResult` returns a plain
array with the elements of the result set in order, and whatever the engine does to the
live set afterwards, that array still reads as the elements at the moment of shaping. -/
theorem C7_list_snapshot (queries : Obj QueryDef) (w : World) (key : Key) (q : QueryDef)
    (h : HandleId) (hq : objGet queries key = some q) (hu : q.unique = false)
    (hcount : q.count = false) (hx : q.extractor = none) :
    getResult queries w key (Ref.handle h) = Except.ok (Value.arr (w.sets h).items) ∧
    ∀ v, getResult queries w key (Ref.handle h) = Except.ok v →
      ∀ w1 : World, Value.elements w1 v = some (w.sets h).items := by
  have hres : getResult queries w key (Ref.handle h) =
      Except.ok (Value.arr (w.sets h).items) := by
    simp [getResult, hq, hu, hcount, hx]
  refine ⟨hres, ?_⟩
  intro v hv w1
  rw [hres] at hv
  cases hv
  rfl

/-- Claim C7 at a concrete input: the list query shaped on handle 1, then the engine
empties handle 1. -/
theorem C7_list_snapshot_witness :
    getResult sampleQueries sampleWorld "items" (Ref.handle 1) =
      Except.ok (Value.arr [10, 11]) ∧
    Value.elements (sampleWorld.mutate 1 []) (Value.arr [10, 11]) = some [10, 11] :=
  have hthm := C7_list_snapshot sampleQueries sampleWorld "items"
    (sampleObjects 10) 1 rfl rfl rfl rfl
  ⟨hthm.1, hthm.2 (Value.arr [10, 11]) hthm.1 (sampleWorld.mutate 1 [])⟩

/-- A live reference, unlike a plain array, follows the engine: after handle 1 is
emptied it reads as empty. -/
theorem live_reference_follows_mutation :
    Value.elements sampleWorld (Value.live 1) = some [10, 11] ∧
    Value.elements (sampleWorld.mutate 1 []) (Value.live 1) = some [] := by
  decide

/-- Claim C8: a change payload whose three lists are all empty makes `onChange` return
without a state-merge: the instance and the engine are exactly as before. -/
theorem C8_empty_changes_no_merge (queries : Obj QueryDef) (s : Sys) (key : Key)
    (results : Ref) :
    onChange queries s key results { modifications := [], insertions := [], deletions := [] } =
      (Except.ok (), s) := by
  rfl

/-- Claim C9: for a key of the query map, a change payload with at least one non-empty
list makes `onChange` issue exactly one state-merge, whose patch has that single key
mapped to `getResult(key, results)` for the notified results; the key then has that value
in the view state and every other key of the view state is unchanged. -/
theorem C9_change_merges_key (queries : Obj QueryDef) (s : Sys) (key : Key) (q : QueryDef)
    (h : HandleId) (changes : Changes) (hq : objGet queries key = some q)
    (hany : changes.modifications ≠ [] ∨ changes.insertions ≠ [] ∨ changes.deletions ≠ []) :
    ∃ v, getResult queries s.world key (Ref.handle h) = Except.ok v ∧
      (onChange queries s key (Ref.handle h) changes).1 = Except.ok () ∧
      (onChange queries s key (Ref.handle h) changes).2.merges = s.merges ++ [[(key, v)]] ∧
      objGet (onChange queries s key (Ref.handle h) changes).2.state key = some v ∧
      (∀ k1, k1 ≠ key →
        objGet (onChange queries s key (Ref.handle h) changes).2.state k1 =
          objGet s.state k1) ∧
      (onChange queries s key (Ref.handle h) changes).2.results = s.results ∧
      (onChange queries s key (Ref.handle h) changes).2.world = s.world := by
  obtain ⟨v, hv⟩ := getResult_handle_ok queries s.world key q h hq
  have hflag : changes.any = true := by
    unfold Changes.any
    rcases hany with hm | hi | hd
    · cases hc : changes.modifications with
      | nil => exact absurd hc hm
      | cons a l => simp
    · cases hc : changes.insertions with
      | nil => exact absurd hc hi
      | cons a l => simp
    · cases hc : changes.deletions with
      | nil => exact absurd hc hd
      | cons a l => simp
  have hrun : onChange queries s key (Ref.handle h) changes =
      (Except.ok (), setState s [(key, v)]) := by
    simp [onChange, onChangeWith, hflag, hv]
  rw [hrun]
  refine ⟨v, hv, rfl, rfl, ?_, ?_, rfl, rfl⟩
  · exact objGet_objSet_self s.state key v
  · intro k1 hk1
    exact objGet_objSet_ne s.state key k1 v hk1

/-- Claim C9 at a concrete input: the instance mounted on handle 1 is notified of an
insertion at index 0. -/
theorem C9_change_merges_key_witness :
    ∃ v, getResult switchQueries switchMounted.world "a" (Ref.handle 1) = Except.ok v ∧
      (onChange switchQueries switchMounted "a" (Ref.handle 1)
        { modifications := [], insertions := [0], deletions := [] }).1 = Except.ok () ∧
      (onChange switchQueries switchMounted "a" (Ref.handle 1)
        { modifications := [], insertions := [0], deletions := [] }).2.merges =
          switchMounted.merges ++ [[("a", v)]] :=
  have hthm := C9_change_merges_key switchQueries switchMounted "a" switchQuery 1
    { modifications := [], insertions := [0], deletions := [] } rfl
    (Or.inr (Or.inl (by decide)))
  match hthm with
  | ⟨v, h1, h2, h3, _⟩ => ⟨v, h1, h2, h3⟩

/-- Claim C10 fails on the code: an instance whose query definition returned `null` at
mount still holds `null` for that key, and the unmount hook throws a `TypeError` on it
instead of skipping it. -/
theorem C10_unmount_throws_on_null_entry :
    (mountFresh switchQueries 0 [] sampleWorld).1 = Except.ok () ∧
    heldAt (mountFresh switchQueries 0 [] sampleWorld).2.results "a" = Ref.null ∧
    (componentWillUnmount (mountFresh switchQueries 0 [] sampleWorld).2).1 =
      Except.error Err.typeError := by
  decide

/-- Claim C11, as stated, fails: after the unmount hook has returned and detached the
listener, a notification with a non-empty insertions list still issues a state-merge. -/
theorem C11_notification_after_unmount_counterexample :
    (componentWillUnmount switchMounted).1 = Except.ok () ∧
    switchUnmounted.world.registered 1 (listenerOf switchUnmounted "a") = 0 ∧
    (onChangeUnmounted switchQueries switchUnmounted "a" (Ref.handle 1)
      { modifications := [], insertions := [0], deletions := [] }).1 = Except.ok () ∧
    (onChangeUnmounted switchQueries switchUnmounted "a" (Ref.handle 1)
      { modifications := [], insertions := [0], deletions := [] }).2.merges =
        switchUnmounted.merges ++ [[("a", Value.arr [10, 11])]] ∧
    (onChangeUnmounted switchQueries switchUnmounted "a" (Ref.handle 1)
      { modifications := [], insertions := [0], deletions := [] }).2.merges ≠
        switchUnmounted.merges := by
  decide

/-- Claim C11 (amended): after the unmount hook has run, a change notification for a key
of the query map does not raise an error and leaves the view state unchanged; with three
empty lists it issues no state-merge and leaves the instance as the unmount hook left it;
with a non-empty list `onChange` still issues one state-merge call with that key's shaped
result, which the framework drops. -/
theorem C11_notification_after_unmount (queries : Obj QueryDef) (s : Sys) (key : Key)
    (q : QueryDef) (h : HandleId) (changes : Changes) (hq : objGet queries key = some q) :
    (onChangeUnmounted queries (componentWillUnmount s).2 key (Ref.handle h) changes).1 =
      Except.ok () ∧
    (onChangeUnmounted queries (componentWillUnmount s).2 key (Ref.handle h) changes).2.state =
      (componentWillUnmount s).2.state ∧
    (changes.modifications = [] → changes.insertions = [] → changes.deletions = [] →
      (onChangeUnmounted queries (componentWillUnmount s).2 key (Ref.handle h) changes).2 =
        (componentWillUnmount s).2) ∧
    ((changes.modifications ≠ [] ∨ changes.insertions ≠ [] ∨ changes.deletions ≠ []) →
      ∃ v, getResult queries s.world key (Ref.handle h) = Except.ok v ∧
        (onChangeUnmounted queries (componentWillUnmount s).2 key (Ref.handle h)
          changes).2.merges = (componentWillUnmount s).2.merges ++ [[(key, v)]]) := by
  obtain ⟨v, hv⟩ := getResult_handle_ok queries s.world key q h hq
  have hitems : ∀ x, (((componentWillUnmount s).2).world.sets x).items = (s.world.sets x).items :=
    (removeEntries_frame s.results s).2.2.2.2.2.2
  have hv2 : getResult queries (componentWillUnmount s).2.world key (Ref.handle h) =
      Except.ok v := by
    rw [getResult_congr_items queries s.world _ key _ hitems]
    exact hv
  by_cases hflag : changes.any = true
  · have hrun : onChangeUnmounted queries (componentWillUnmount s).2 key (Ref.handle h)
        changes = (Except.ok (), setStateUnmounted (componentWillUnmount s).2 [(key, v)]) := by
      simp [onChangeUnmounted, onChangeWith, hflag, hv2]
    rw [hrun]
    refine ⟨rfl, rfl, ?_, ?_⟩
    · intro hm hi hd
      simp [Changes.any, hm, hi, hd] at hflag
    · intro _
      exact ⟨v, hv, rfl⟩
  · have hrun : onChangeUnmounted queries (componentWillUnmount s).2 key (Ref.handle h)
        changes = (Except.ok (), (componentWillUnmount s).2) := by
      simp [onChangeUnmounted, onChangeWith, hflag]
    rw [hrun]
    refine ⟨rfl, rfl, fun _ _ _ => rfl, ?_⟩
    intro hany
    exact absurd (changes_any_of_ne_nil changes hany) hflag

/-- Claim C11 (amended) at a concrete input: the unmounted instance is notified of an
insertion after the engine has put a third object in handle 1, and once with empty
lists. -/
theorem C11_notification_after_unmount_witness :
    (onChangeUnmounted switchQueries
      (componentWillUnmount { switchMounted with world := switchMounted.world.mutate 1 [12, 10, 11] }).2
      "a" (Ref.handle 1) { modifications := [], insertions := [0], deletions := [] }).1 =
        Except.ok () ∧
    (onChangeUnmounted switchQueries
      (componentWillUnmount { switchMounted with world := switchMounted.world.mutate 1 [12, 10, 11] }).2
      "a" (Ref.handle 1) { modifications := [], insertions := [0], deletions := [] }).2.state =
        [("a", Value.arr [10, 11])] ∧
    (onChangeUnmounted switchQueries (componentWillUnmount switchMounted).2 "a" (Ref.handle 1)
      { modifications := [], insertions := [], deletions := [] }).2 =
        (componentWillUnmount switchMounted).2 :=
  have hthm := C11_notification_after_unmount switchQueries
    { switchMounted with world := switchMounted.world.mutate 1 [12, 10, 11] } "a" switchQuery 1
    { modifications := [], insertions := [0], deletions := [] } rfl
  ⟨hthm.1, hthm.2.1.trans (by decide),
   (C11_notification_after_unmount switchQueries switchMounted "a" switchQuery 1
      { modifications := [], insertions := [], deletions := [] } rfl).2.2.1 rfl rfl rfl⟩

/-- Claim C12: for a key whose query definition carries the count tag and not the unique
tag, `getResult` returns the number of elements of the result set, 0 when it is empty. -/
theorem C12_count_shaping (queries : Obj QueryDef) (w : World) (key : Key) (q : QueryDef)
    (h : HandleId) (hq : objGet queries key = some q) (hu : q.unique = false)
    (hcount : q.count = true) :
    getResult queries w key (Ref.handle h) = Except.ok (Value.num (w.sets h).items.length) ∧
    ((w.sets h).items = [] → getResult queries w key (Ref.handle h) = Except.ok (Value.num 0)) := by
  have hres : getResult queries w key (Ref.handle h) =
      Except.ok (Value.num (w.sets h).items.length) := by
    simp [getResult, hq, hu, hcount]
  refine ⟨hres, ?_⟩
  intro hitems
  rw [hres, hitems]
  rfl

/-- Claim C12 at concrete inputs: the count query shaped on handle 1, which holds two
objects, and on the empty handle 3. -/
theorem C12_count_shaping_witness :
    getResult taggedQueries sampleWorld "total" (Ref.handle 1) = Except.ok (Value.num 2) ∧
    getResult taggedQueries sampleWorld "total" (Ref.handle 3) = Except.ok (Value.num 0) :=
  ⟨(C12_count_shaping taggedQueries sampleWorld "total"
      (sampleObjects 11) 1 rfl rfl rfl).1,
   (C12_count_shaping taggedQueries sampleWorld "total"
      (sampleObjects 11) 3 rfl rfl rfl).2 rfl⟩

/-- Claim C13: for a key whose query definition carries only the extractor tag,
`getResult` returns exactly the extractor applied to the live result set (the handle and
its current contents), nothing else done to its output. -/
theorem C13_extract_shaping (queries : Obj QueryDef) (w : World) (key : Key) (q : QueryDef)
    (h : HandleId) (fn : Extractor) (hq : objGet queries key = some q)
    (hu : q.unique = false) (hcount : q.count = false) (hx : q.extractor = some fn) :
    getResult queries w key (Ref.handle h) = Except.ok (fn h (w.sets h).items) := by
  simp [getResult, hq, hu, hcount, hx]

/-- Claim C13 at a concrete input: an extractor that hands back the live handle, shaped
on handle 1. -/
theorem C13_extract_shaping_witness :
    getResult taggedQueries sampleWorld "live" (Ref.handle 1) = Except.ok (Value.live 1) :=
  C13_extract_shaping taggedQueries sampleWorld "live"
    (sampleObjects 12) 1 (fun h _ => Value.live h) rfl rfl rfl rfl

/-- Claim C14, as stated, fails: for a query map with a key named `key`, the view state has
that name, but `createElement` takes the reserved name out, so the element that `render`
returns does not deliver it. -/
theorem C14_reserved_name_counterexample :
    objGet keyMounted.state "key" = some (Value.arr [10, 11]) ∧
    render plainComponent keyMounted = some { component := 7, props := [] } ∧
    ¬ (∀ k v, objGet keyMounted.state k = some v →
        ∃ el, render plainComponent keyMounted = some el ∧ objGet el.props k = some v) := by
  refine ⟨by decide, by decide, ?_⟩
  intro hall
  obtain ⟨el, hel, hget⟩ := hall "key" (Value.arr [10, 11]) (by decide)
  have hrender : render plainComponent keyMounted = some { component := 7, props := [] } := by
    decide
  rw [hrender] at hel
  cases hel
  cases hget

/-- Claim C14 (amended): `render` returns nothing while the view state has no key;
otherwise it returns an element of the wrapped component whose inputs are the instance
inputs merged with the view state, without the names that `createElement` reserves: for
every other name, a name of the view state is delivered with its view-state value, an
input whose name is not in the view state is delivered unchanged, and a name in neither
gets the component's default, if it has one. A reserved name is delivered only as a
default. -/
theorem C14_render_contract (wrapped : Component) (s : Sys)
    (hprops : (objKeys s.props).Nodup) (hstate : (objKeys s.state).Nodup) :
    (s.state = [] → render wrapped s = none) ∧
    (s.state ≠ [] →
      ∃ el, render wrapped s = some el ∧ el.component = wrapped.id ∧
        (∀ k, k ∉ reservedProps →
          (∀ v, objGet s.state k = some v → objGet el.props k = some v) ∧
          (objGet s.state k = none → ∀ v, objGet s.props k = some v →
            objGet el.props k = some v) ∧
          (objGet s.state k = none → objGet s.props k = none →
            objGet el.props k = objGet wrapped.defaultProps k)) ∧
        ∀ k, k ∈ reservedProps → objGet el.props k = objGet wrapped.defaultProps k) := by
  constructor
  · intro hempty
    simp [render, hempty, objKeys]
  · intro hne
    have hlen : ¬ (objKeys s.state).length = 0 := by
      cases hst : s.state with
      | nil => exact absurd hst hne
      | cons p rest => simp [objKeys]
    refine ⟨createElement wrapped (objAssign (objAssign [] s.props) s.state),
      by simp [render, hlen], rfl, ?_, ?_⟩
    · intro k hk
      have hkeep : decide (k ∉ reservedProps) = true := by simpa using hk
      have hmerged := objGet_objAssign s.state (objAssign [] s.props) k hstate
      have hbase := objGet_objAssign s.props [] k hprops
      have hel : objGet (createElement wrapped (objAssign (objAssign [] s.props) s.state)).props k =
          match objGet (objAssign (objAssign [] s.props) s.state) k with
          | some v => some v
          | none => objGet wrapped.defaultProps k := by
        simp only [createElement]
        rw [objGet_fillDefaults,
          objGet_filter_keys (fun n => decide (n ∉ reservedProps)) _ k]
        simp only [hkeep, if_true]
      refine ⟨?_, ?_, ?_⟩
      · intro v hv
        rw [hel, hmerged, hv]
      · intro hnone v hv
        rw [hel, hmerged, hnone, hbase, hv]
      · intro hnone hnone2
        rw [hel, hmerged, hnone, hbase, hnone2]
        rfl
    · intro k hk
      have hdrop : decide (k ∉ reservedProps) = false := by simpa using hk
      simp only [createElement]
      rw [objGet_fillDefaults,
        objGet_filter_keys (fun n => decide (n ∉ reservedProps)) _ k]
      simp [hdrop]

/-- Claim C14 (amended) at concrete inputs: inputs `on` and `a` with a view state that has
`a`, and a freshly constructed instance, whose view state is empty. -/
theorem C14_render_contract_witness :
    (∃ el, render plainComponent switchColliding = some el ∧ el.component = 7 ∧
      objGet el.props "a" = some (Value.arr [10, 11]) ∧
      objGet el.props "on" = some (Value.num 1)) ∧
    render plainComponent (construct switchQueries 0 (onProps 1) sampleWorld) = none :=
  have hnone := (C14_render_contract plainComponent
    (construct switchQueries 0 (onProps 1) sampleWorld) (by decide) (by decide)).1 rfl
  match (C14_render_contract plainComponent switchColliding (by decide) (by decide)).2
    (by decide) with
  | ⟨el, h1, h2, h3, _⟩ =>
    ⟨⟨el, h1, h2, (h3 "a" (by decide)).1 (Value.arr [10, 11]) (by decide),
      (h3 "on" (by decide)).2.1 (by decide) (Value.num 1) (by decide)⟩, hnone⟩

/-- Claim C15: `shouldComponentUpdate` returns the value of the predicate given to
`connectToQuery` applied to the next inputs, and true when no predicate was given. -/
theorem C15_update_gating (nextProps : Props) :
    (∀ p : Props → Bool, shouldComponentUpdate (some p) nextProps = p nextProps) ∧
    shouldComponentUpdate none nextProps = true :=
  ⟨fun _ => rfl, rfl⟩

/-- Claim C16: each result modifier returns the very reference it was given, and in the
heap it leaves behind that object has its own tag set (`unique` true, `count` true,
`extractor` the given function) with its other two tags and its query function as before,
and every other object is untouched. -/
theorem C16_modifiers_only_annotate (heap : ObjHeap) (d : ObjRef) (fn : Extractor) :
    ((unique heap d).1 = d ∧ ((unique heap d).2 d).unique = true ∧
      ((unique heap d).2 d).count = (heap d).count ∧
      ((unique heap d).2 d).extractor = (heap d).extractor ∧
      ((unique heap d).2 d).fn = (heap d).fn ∧
      ∀ r, r ≠ d → (unique heap d).2 r = heap r) ∧
    ((count heap d).1 = d ∧ ((count heap d).2 d).count = true ∧
      ((count heap d).2 d).unique = (heap d).unique ∧
      ((count heap d).2 d).extractor = (heap d).extractor ∧
      ((count heap d).2 d).fn = (heap d).fn ∧
      ∀ r, r ≠ d → (count heap d).2 r = heap r) ∧
    ((extract heap d fn).1 = d ∧ ((extract heap d fn).2 d).extractor = some fn ∧
      ((extract heap d fn).2 d).unique = (heap d).unique ∧
      ((extract heap d fn).2 d).count = (heap d).count ∧
      ((extract heap d fn).2 d).fn = (heap d).fn ∧
      ∀ r, r ≠ d → (extract heap d fn).2 r = heap r) := by
  refine ⟨⟨rfl, ?_, ?_, ?_, ?_, ?_⟩, ⟨rfl, ?_, ?_, ?_, ?_, ?_⟩, ⟨rfl, ?_, ?_, ?_, ?_, ?_⟩⟩
  all_goals first
    | (intro r hr
       simp [unique, count, extract, heapWrite, hr])
    | simp [unique, count, extract, heapWrite, QueryDef.setUnique, QueryDef.setCount,
        QueryDef.setExtractor]

/-- Claim C16 at a concrete input: `unique(o20)` on the untagged heap returns `o20`; read
through either of two keys that refer to `o20`, the definition is now tagged unique, and
the object `o21` is still untagged. -/
theorem C16_modifiers_only_annotate_witness :
    (unique plainObjects 20).1 = 20 ∧
    ((unique plainObjects 20).2 20).unique = true ∧
    ((unique plainObjects 20).2 20).count = false ∧
    (unique plainObjects 20).2 21 = plainObjects 21 ∧
    (objGet (queryMap (unique plainObjects 20).2 [("a", 20), ("b", 20)]) "a").map
      QueryDef.unique = some true ∧
    (objGet (queryMap (unique plainObjects 20).2 [("a", 20), ("b", 20)]) "b").map
      QueryDef.unique = some true :=
  have hthm := (C16_modifiers_only_annotate plainObjects 20 (fun h _ => Value.live h)).1
  ⟨hthm.1, hthm.2.1, hthm.2.2.1, hthm.2.2.2.2.2 21 (by decide), by decide, by decide⟩

/-- Claim C17, as stated, fails: after mount on handle 1, an input change for which the
query definition returns `undefined` throws the configuration error after the listener
has been detached, so the key still holds handle 1 with no listener registered on it. -/
theorem C17_failed_resolution_counterexample :
    Reachable switchQueries switchFailed ∧
    (componentWillReceiveProps switchQueries switchMounted (onProps 0)).1 =
      Except.error (Err.config "a") ∧
    heldAt switchFailed.results "a" = Ref.handle 1 ∧
    switchFailed.world.registered 1 (listenerOf switchFailed "a") = 0 ∧
    ¬ StrongInv switchFailed := by
  refine ⟨?_, by decide, by decide, by decide, ?_⟩
  · exact Reachable.receiveProps _ (onProps 0)
      (Reachable.mount _ (Reachable.init 0 (onProps 1) sampleWorld (fun _ _ => rfl)))
  · intro hinv
    have h1 := hinv "a" 1 (by decide)
    revert h1
    decide

/-- Claim C17 (amended): in every state reached from construction by mount, input-change
and change-notification steps in which no key that holds a handle gets a candidate that is
not a handle, every key that holds a handle has its listener registered on that handle
exactly once, and on no other handle. -/
theorem C17_registry_invariant (queries : Obj QueryDef) (hnodup : (objKeys queries).Nodup)
    (s : Sys) (hs : ReachableKeeping queries s) (key : Key) (h : HandleId)
    (hheld : heldAt s.results key = Ref.handle h) :
    s.world.registered h (listenerOf s key) = 1 ∧
    ∀ h1, h1 ≠ h → s.world.registered h1 (listenerOf s key) = 0 := by
  refine ⟨keeping_strongInv queries hnodup s hs key h hheld, ?_⟩
  intro h1 hne
  have hb := reachable_weakInv queries s (reachable_of_keeping queries s hs) key h1
  rw [hheld] at hb
  have hne2 : ¬ h = h1 := fun e => hne e.symm
  simpa [hne2] using hb

/-- Claim C17 (amended) at a concrete input: the instance mounted on handle 1 after an
input change to handle 2. -/
theorem C17_registry_invariant_witness :
    heldAt (componentWillReceiveProps switchQueries switchMounted (onProps 2)).2.results "a" =
      Ref.handle 2 ∧
    (componentWillReceiveProps switchQueries switchMounted (onProps 2)).2.world.registered 2
      (listenerOf (componentWillReceiveProps switchQueries switchMounted (onProps 2)).2 "a") =
        1 ∧
    (componentWillReceiveProps switchQueries switchMounted (onProps 2)).2.world.registered 1
      (listenerOf (componentWillReceiveProps switchQueries switchMounted (onProps 2)).2 "a") =
        0 :=
  have hheld : heldAt
      (componentWillReceiveProps switchQueries switchMounted (onProps 2)).2.results "a" =
      Ref.handle 2 := by decide
  have hkeep0 : KeepsHandles switchQueries (construct switchQueries 0 (onProps 1) sampleWorld)
      (construct switchQueries 0 (onProps 1) sampleWorld).props := by
    intro k q hm h hh
    simp only [switchQueries, List.mem_cons, Prod.mk.injEq, List.mem_nil_iff, or_false] at hm
    obtain ⟨rfl, rfl⟩ := hm
    have hnull : heldAt (construct switchQueries 0 (onProps 1) sampleWorld).results "a" =
        Ref.null := by decide
    exact absurd (hnull.symm.trans hh) (by simp)
  have hkeep1 : KeepsHandles switchQueries switchMounted (onProps 2) := by
    intro k q hm h _
    simp only [switchQueries, List.mem_cons, Prod.mk.injEq, List.mem_nil_iff, or_false] at hm
    obtain ⟨rfl, rfl⟩ := hm
    exact ⟨2, rfl⟩
  have hthm := C17_registry_invariant switchQueries (by decide)
    (componentWillReceiveProps switchQueries switchMounted (onProps 2)).2
    (ReachableKeeping.receiveProps switchMounted (onProps 2)
      (ReachableKeeping.mount _ (ReachableKeeping.init 0 (onProps 1) sampleWorld
        (fun _ _ => rfl)) hkeep0) hkeep1)
    "a" 2 hheld
  ⟨hheld, hthm.1, hthm.2 1 (by decide)⟩

/-- Claim C18: whatever other tags a query definition carries, `getResult` shapes as
unique when the unique tag is set, as count when the count tag is set and unique is not,
and applies the extractor only when neither unique nor count is set. -/
theorem C18_tag_precedence (queries : Obj QueryDef) (w : World) (key : Key) (q : QueryDef)
    (h : HandleId) (hq : objGet queries key = some q) :
    (q.unique = true →
      getResult queries w key (Ref.handle h) =
        Except.ok (match (w.sets h).items with
          | [] => Value.null
          | e :: _ => Value.obj e)) ∧
    (q.unique = false → q.count = true →
      getResult queries w key (Ref.handle h) =
        Except.ok (Value.num (w.sets h).items.length)) ∧
    (q.unique = false → q.count = false → ∀ fn, q.extractor = some fn →
      getResult queries w key (Ref.handle h) = Except.ok (fn h (w.sets h).items)) := by
  refine ⟨?_, ?_, ?_⟩
  · intro hu
    cases hitems : (w.sets h).items <;> simp [getResult, hq, hu, hitems]
  · intro hu hcount
    simp [getResult, hq, hu, hcount]
  · intro hu hcount fn hx
    simp [getResult, hq, hu, hcount, hx]

/-- Claim C18 at concrete inputs: a definition with all three tags shapes as unique, and
one with the count and the extractor tag shapes as count. -/
theorem C18_tag_precedence_witness :
    getResult taggedQueries sampleWorld "three" (Ref.handle 2) = Except.ok (Value.obj 20) ∧
    getResult taggedQueries sampleWorld "two" (Ref.handle 1) = Except.ok (Value.num 2) :=
  ⟨(C18_tag_precedence taggedQueries sampleWorld "three"
      (sampleObjects 21) 2 rfl).1 rfl,
   (C18_tag_precedence taggedQueries sampleWorld "two"
      (sampleObjects 13) 1 rfl).2.1 rfl rfl⟩

/-- Claim C19: for a key whose entry in `this.results` is `null`, a query definition that
returns `null` makes `updateQuery` return false with nothing changed (no error, no engine
call, the entry still `null`), and the state object that `getStateFromProps` returns has
no entry for that key. -/
theorem C19_null_candidate (queries : Obj QueryDef) (s : Sys) (key : Key) (q : QueryDef)
    (props : Props) (hnodup : (objKeys queries).Nodup) (hm : (key, q) ∈ queries)
    (hheld : heldAt s.results key = Ref.null) (hc : q.fn props = Ref.null) :
    updateQuery s key q props = (Except.ok false, s) ∧
    ∀ patch, (getStateFromProps queries s props).1 = Except.ok patch →
      objGet patch key = none ∧
      heldAt (getStateFromProps queries s props).2.results key = Ref.null := by
  have hsame : q.fn props = heldAt s.results key := by rw [hc, hheld]
  refine ⟨updateQuery_same s key q props hsame, ?_⟩
  intro patch hok
  obtain ⟨h1, h2⟩ := resolveEntries_same queries props key q queries [] s hnodup hm hsame
    patch hok
  exact ⟨h1, h2.trans hheld⟩

/-- Claim C19 at a concrete input: a freshly constructed instance whose query definition
returns `null` on the empty inputs. -/
theorem C19_null_candidate_witness :
    heldAt (construct switchQueries 0 [] sampleWorld).results "a" = Ref.null ∧
    switchQuery.fn [] = Ref.null ∧
    updateQuery (construct switchQueries 0 [] sampleWorld) "a" switchQuery [] =
      (Except.ok false, construct switchQueries 0 [] sampleWorld) ∧
    (getStateFromProps switchQueries (construct switchQueries 0 [] sampleWorld) []).1 =
      Except.ok [] ∧
    objGet ([] : Obj Value) "a" = none ∧
    heldAt (getStateFromProps switchQueries (construct switchQueries 0 [] sampleWorld)
      []).2.results "a" = Ref.null :=
  have hthm := C19_null_candidate switchQueries (construct switchQueries 0 [] sampleWorld)
    "a" switchQuery [] (by decide) (List.mem_cons_self _ _) (by decide) rfl
  ⟨by decide, rfl, hthm.1, rfl, hthm.2 [] rfl⟩

end RealmConnect
